import Mathlib

/-!
# Minesweeper client (`src/include/client.h`): a shallow embedding

The client keeps three global grids (`visible_map`, `is_marked`,
`mine_probability`), refreshes the probabilities after every snapshot
(`updateMineProbabilities`, `performAdvancedPatternAnalysis`) and picks one
action per turn (`Decide`).

Modelling conventions.
* Coordinates are `Int`, as in the source (`int ni = i + dr[k]`, the `{-1, -1}`
  sentinel).  A grid `std::vector<std::vector<T>>` is a total function
  `Int → Int → T`; the source only indexes it at coordinates that passed the
  bounds test `0 <= ni < rows && 0 <= nj < columns`.
* A `double` probability is a rational number.  The source only stores the
  literals `0.0`, `0.5`, `1.0` (here `0`, `half`, `1`) and compares with `!=`
  and `<`, which are exact on them.
* `while (changed)` is a loop with fuel: `none` means the fuel ran out.
* `Execute` is external; `Decide` returns the list of the calls it makes.
* The standard input is a parameter: `InitGame` takes the first move, `ReadMap`
  the lines of the snapshot, each a list of characters.
-/

namespace Minesweeper

/-- The literal `0.5`, given in lowest terms so that it evaluates. -/
def half : ℚ := ⟨1, 2, by decide, by decide⟩

/-- The globals of `client.h` (with the externs `rows` and `columns`). -/
structure Game where
  rows : Nat
  columns : Nat
  visible_map : Int → Int → Int
  is_marked : Int → Int → Bool
  mine_probability : Int → Int → ℚ
  total_cells_visited : Int
  total_mines_marked : Int
  first_move : Bool

/-- A call `Execute(r, c, type)`. -/
structure Action where
  r : Int
  c : Int
  type : Int
deriving DecidableEq

/-- The arrays `dr[8]`, `dc[8]`. -/
def dr : List Int := [-1, -1, -1, 0, 0, 1, 1, 1]

/-- The array `dc[8]`. -/
def dc : List Int := [-1, 0, 1, -1, 1, -1, 0, 1]

/-- The pairs `(dr[k], dc[k])` for `k = 0..7`. -/
def offsets : List (Int × Int) := dr.zip dc

/-- The iteration space `for i in 0..rows, for j in 0..columns`, in order. -/
def cells (rows columns : Nat) : List (Int × Int) :=
  (List.range rows).flatMap fun (i : Nat) =>
    (List.range columns).map fun (j : Nat) => ((i : Int), (j : Int))

/-- The locals filled by the `for (k = 0; k < 8; k++)` neighbour loop. -/
structure Scan where
  neighbors : List (Int × Int)
  marked_mines : Int
  unknown_cells : Int

/-- One iteration of the neighbour loop for the cell `(i, j)` and offset `d`. -/
def scanStep (s : Game) (i j : Int) (acc : Scan) (d : Int × Int) : Scan :=
  let ni := i + d.1
  let nj := j + d.2
  if 0 ≤ ni ∧ ni < s.rows ∧ 0 ≤ nj ∧ nj < s.columns then
    if s.is_marked ni nj then
      { acc with marked_mines := acc.marked_mines + 1 }
    else if s.visible_map ni nj = -1 then
      { acc with neighbors := acc.neighbors ++ [(ni, nj)], unknown_cells := acc.unknown_cells + 1 }
    else acc
  else acc

/-- The neighbour loop: the hidden-unmarked neighbours of `(i, j)` in offset
order, the number of marked neighbours, and the number of hidden-unmarked ones.
(`findBestAutoExplore` keeps only the two counters and
`performAdvancedPatternAnalysis` only the list and the marked counter.) -/
def scan (s : Game) (i j : Int) : Scan :=
  offsets.foldl (scanStep s i j) ⟨[], 0, 0⟩

/-- Assignment `mine_probability[c.first][c.second] = v`. -/
def setProb (p : Int → Int → ℚ) (c : Int × Int) (v : ℚ) : Int → Int → ℚ :=
  fun i j => if i = c.1 ∧ j = c.2 then v else p i j

/-- The reset loop at the top of `updateMineProbabilities`. -/
def resetProbabilities (s : Game) : Int → Int → ℚ :=
  (cells s.rows s.columns).foldl
    (fun p c => if s.visible_map c.1 c.2 = -1 ∧ ¬ s.is_marked c.1 c.2 then setProb p c half else p)
    s.mine_probability

/-- The body of `for (auto& [ni, nj] : neighbors)` in the propagation loop:
`if (mine_probability[ni][nj] != v) { mine_probability[ni][nj] = v; changed = true; }`. -/
def force (v : ℚ) (st : (Int → Int → ℚ) × Bool) (c : Int × Int) : (Int → Int → ℚ) × Bool :=
  if st.1 c.1 c.2 ≠ v then (setProb st.1 c v, true) else st

/-- The body of the double `for` of the propagation loop at the cell `c`,
acting on `mine_probability` and `changed`. -/
def scanCell (s : Game) (st : (Int → Int → ℚ) × Bool) (c : Int × Int) : (Int → Int → ℚ) × Bool :=
  if 0 ≤ s.visible_map c.1 c.2 ∧ s.visible_map c.1 c.2 ≤ 8 then
    let count := s.visible_map c.1 c.2
    let sc := scan s c.1 c.2
    let remaining_mines := if count - sc.marked_mines < 0 then 0 else count - sc.marked_mines
    if remaining_mines = 0 ∧ sc.unknown_cells > 0 then
      sc.neighbors.foldl (force 0) st
    else if remaining_mines = sc.unknown_cells ∧ sc.unknown_cells > 0 then
      sc.neighbors.foldl (force 1) st
    else st
  else st

/-- One iteration of `while (changed)`: `changed = false`, then the full scan. -/
def pass (s : Game) (p : Int → Int → ℚ) : (Int → Int → ℚ) × Bool :=
  (cells s.rows s.columns).foldl (scanCell s) (p, false)

/-- The loop `while (changed)`, at most `fuel` iterations. -/
def propagate (s : Game) : Nat → (Int → Int → ℚ) → Option (Int → Int → ℚ)
  | 0, _ => none
  | fuel + 1, p =>
    let r := pass s p
    if r.2 then propagate s fuel r.1 else some r.1

/-- An entry of `numbered_cells`: `{i, j, remaining_mines, neighbors}`. -/
structure Numbered where
  i : Int
  j : Int
  mines : Int
  neighbors : List (Int × Int)

/-- The body of the collecting loop of `performAdvancedPatternAnalysis`. -/
def numberedCell (s : Game) (c : Int × Int) : Option Numbered :=
  if 1 ≤ s.visible_map c.1 c.2 ∧ s.visible_map c.1 c.2 ≤ 8 then
    let sc := scan s c.1 c.2
    let remaining_mines := s.visible_map c.1 c.2 - sc.marked_mines
    if remaining_mines > 0 ∧ sc.neighbors ≠ [] then
      some ⟨c.1, c.2, remaining_mines, sc.neighbors⟩
    else none
  else none

/-- The vector `numbered_cells`, in the order it is filled. -/
def numbered_cells (s : Game) : List Numbered :=
  (cells s.rows s.columns).filterMap (numberedCell s)

/-- The helper `isSubset(a, b)`. -/
def isSubset (a b : List (Int × Int)) : Bool :=
  a.all fun cell => b.any fun bcell => cell.1 == bcell.1 && cell.2 == bcell.2

/-- The helper `getDifference(b, a)`: the elements of `b` not in `a`. -/
def getDifference (b a : List (Int × Int)) : List (Int × Int) :=
  b.filter fun bcell => !(a.any fun acell => bcell.1 == acell.1 && bcell.2 == acell.2)

/-- The body of the pair loop for `numbered_cells[a] = x`, `numbered_cells[b] = y`. -/
def analysePair (x y : Numbered) (p : Int → Int → ℚ) : Int → Int → ℚ :=
  if isSubset x.neighbors y.neighbors then
    if x.mines = y.mines then
      (getDifference y.neighbors x.neighbors).foldl (fun q c => setProb q c 0) p
    else if y.mines = x.mines + (y.neighbors.length : Int) - (x.neighbors.length : Int) then
      (getDifference y.neighbors x.neighbors).foldl (fun q c => setProb q c 1) p
    else p
  else p

/-- The loops `for a`, `for b = a + 1`: every entry against every later one. -/
def analysePairs : List Numbered → (Int → Int → ℚ) → (Int → Int → ℚ)
  | [], p => p
  | x :: rest, p => analysePairs rest (rest.foldl (fun q y => analysePair x y q) p)

/-- The function `performAdvancedPatternAnalysis`. -/
def performAdvancedPatternAnalysis (s : Game) : Game :=
  { s with mine_probability := analysePairs (numbered_cells s) s.mine_probability }

/-- The function `updateMineProbabilities`; `none` when the loop needs more than
`fuel` iterations. -/
def updateMineProbabilities (fuel : Nat) (s : Game) : Option Game :=
  match propagate s fuel (resetProbabilities s) with
  | none => none
  | some p => some (performAdvancedPatternAnalysis { s with mine_probability := p })

/-- The test of `findObviousSafe` at a cell. -/
def obviousSafeAt (s : Game) (c : Int × Int) : Bool :=
  decide (0 ≤ s.visible_map c.1 c.2 ∧ s.visible_map c.1 c.2 ≤ 8) &&
    decide (s.visible_map c.1 c.2 - (scan s c.1 c.2).marked_mines = 0 ∧
      (scan s c.1 c.2).unknown_cells > 0)

/-- The function `findObviousSafe`: `neighbors[0]` of the first cell in scan
order that passes the test, else `{-1, -1}`. -/
def findObviousSafe (s : Game) : Int × Int :=
  match (cells s.rows s.columns).find? (obviousSafeAt s) with
  | some c => (scan s c.1 c.2).neighbors.headD (-1, -1)
  | none => (-1, -1)

/-- The test of `findObviousMine` at a cell. -/
def obviousMineAt (s : Game) (c : Int × Int) : Bool :=
  decide (0 ≤ s.visible_map c.1 c.2 ∧ s.visible_map c.1 c.2 ≤ 8) &&
    decide (s.visible_map c.1 c.2 - (scan s c.1 c.2).marked_mines = (scan s c.1 c.2).unknown_cells ∧
      (scan s c.1 c.2).unknown_cells > 0)

/-- The function `findObviousMine`. -/
def findObviousMine (s : Game) : Int × Int :=
  match (cells s.rows s.columns).find? (obviousMineAt s) with
  | some c => (scan s c.1 c.2).neighbors.headD (-1, -1)
  | none => (-1, -1)

/-- The test of `findBestAutoExplore` at a cell. -/
def autoExploreAt (s : Game) (c : Int × Int) : Bool :=
  decide (1 ≤ s.visible_map c.1 c.2 ∧ s.visible_map c.1 c.2 ≤ 8) &&
    decide ((scan s c.1 c.2).marked_mines = s.visible_map c.1 c.2 ∧
      (scan s c.1 c.2).unknown_cells > 0)

/-- The function `findBestAutoExplore`. -/
def findBestAutoExplore (s : Game) : Int × Int :=
  match (cells s.rows s.columns).find? (autoExploreAt s) with
  | some c => c
  | none => (-1, -1)

/-- The body of the double loop of `findSafestCell` on `(min_prob, safest)`. -/
def safestStep (s : Game) (acc : ℚ × (Int × Int)) (c : Int × Int) : ℚ × (Int × Int) :=
  if s.visible_map c.1 c.2 = -1 ∧ ¬ s.is_marked c.1 c.2 then
    if s.mine_probability c.1 c.2 < acc.1 then (s.mine_probability c.1 c.2, c) else acc
  else acc

/-- The function `findSafestCell`. -/
def findSafestCell (s : Game) : Int × Int :=
  ((cells s.rows s.columns).foldl (safestStep s) (1, (-1, -1))).2

/-- The vector `unknown_cells` built by the fallback of `Decide`. -/
def unknownCells (s : Game) : List (Int × Int) :=
  (cells s.rows s.columns).filter fun c => s.visible_map c.1 c.2 = -1 ∧ ¬ s.is_marked c.1 c.2

/-- The function `Decide`: the calls to `Execute` it makes, in order, and the
globals afterwards.  `rnd` is the value drawn from the random generator; the
distribution `dis(0, size - 1)` maps it into range. -/
def Decide (s : Game) (rnd : Nat) : List Action × Game :=
  let auto_explore := findBestAutoExplore s
  if auto_explore.1 ≠ -1 then ([⟨auto_explore.1, auto_explore.2, 2⟩], s)
  else
    let obvious_mine := findObviousMine s
    if obvious_mine.1 ≠ -1 then
      ([⟨obvious_mine.1, obvious_mine.2, 1⟩], { s with total_mines_marked := s.total_mines_marked + 1 })
    else
      let obvious_safe := findObviousSafe s
      if obvious_safe.1 ≠ -1 then ([⟨obvious_safe.1, obvious_safe.2, 0⟩], s)
      else
        let safest := findSafestCell s
        if safest.1 ≠ -1 then ([⟨safest.1, safest.2, 0⟩], s)
        else
          let unknown_cells := unknownCells s
          if unknown_cells ≠ [] then
            let chosen := unknown_cells.getD (rnd % unknown_cells.length) (-1, -1)
            ([⟨chosen.1, chosen.2, 0⟩], s)
          else ([], s)

/-- Build a grid from its rows; `d` outside. -/
def gridOf {α : Type} (l : List (List α)) (d : α) : Int → Int → α :=
  fun i j => if 0 ≤ i ∧ 0 ≤ j then ((l.getD i.toNat []).getD j.toNat d) else d

/-- A game state from the rows of `visible_map`, nothing marked, all `0.5`. -/
def board (rows columns : Nat) (vm : List (List Int)) : Game :=
  { rows := rows, columns := columns, visible_map := gridOf vm (-1),
    is_marked := fun _ _ => false, mine_probability := fun _ _ => half,
    total_cells_visited := 0, total_mines_marked := 0, first_move := false }

/-- Row-major order on coordinates: the order of the double `for` loops. -/
def rowMajorLt (a b : Int × Int) : Prop := a.1 < b.1 ∨ (a.1 = b.1 ∧ a.2 < b.2)

instance (a b : Int × Int) : Decidable (rowMajorLt a b) := by
  unfold rowMajorLt; infer_instance

/-- The bounds test `0 <= i < rows && 0 <= j < columns`. -/
def inBounds (s : Game) (c : Int × Int) : Prop :=
  0 ≤ c.1 ∧ c.1 < s.rows ∧ 0 ≤ c.2 ∧ c.2 < s.columns

instance (s : Game) (c : Int × Int) : Decidable (inBounds s c) := by
  unfold inBounds; infer_instance

/-- The eight coordinates `(i + dr[k], j + dc[k])`, in the order of `k`. -/
def nbrs (i j : Int) : List (Int × Int) :=
  offsets.map fun d => (i + d.1, j + d.2)

/-- An in-bounds cell that is hidden (`visible_map == -1`) and not marked. -/
def isHU (s : Game) (c : Int × Int) : Bool :=
  decide (inBounds s c) && (!s.is_marked c.1 c.2 && decide (s.visible_map c.1 c.2 = -1))

/-- An in-bounds cell that is marked. -/
def isMk (s : Game) (c : Int × Int) : Bool :=
  decide (inBounds s c) && s.is_marked c.1 c.2

/-- Every cell of the grid holds `-1` or a count `0..8`: no exploded mine (`9`). -/
def NoExploded (s : Game) : Prop :=
  ∀ c ∈ cells s.rows s.columns, -1 ≤ s.visible_map c.1 c.2 ∧ s.visible_map c.1 c.2 ≤ 8

instance (s : Game) : Decidable (NoExploded s) := by
  unfold NoExploded; infer_instance

/-- The number of mines of the placement `mine` among the in-bounds neighbours of `(i, j)`. -/
def mineCount (s : Game) (mine : Int → Int → Bool) (i j : Int) : Nat :=
  (nbrs i j).countP fun c => decide (inBounds s c) && mine c.1 c.2

/-- The placement `mine` is consistent with the grid: every marked cell is a
mine, no revealed cell (count `0..8`) is a mine, and every revealed count is the
number of mines among the in-bounds neighbours. -/
def Consistent (s : Game) (mine : Int → Int → Bool) : Prop :=
  ∀ c ∈ cells s.rows s.columns,
    (s.is_marked c.1 c.2 = true → mine c.1 c.2 = true) ∧
    (0 ≤ s.visible_map c.1 c.2 ∧ s.visible_map c.1 c.2 ≤ 8 →
      mine c.1 c.2 = false ∧ s.visible_map c.1 c.2 = (mineCount s mine c.1 c.2 : Nat))

instance (s : Game) (mine : Int → Int → Bool) : Decidable (Consistent s mine) := by
  unfold Consistent; infer_instance

/-- The first rule of the propagation loop fires at the cell `c`: a revealed
count whose clipped `remaining_mines` is `0`, with a hidden-unmarked neighbour. -/
def safeRule (s : Game) (c : Int × Int) : Prop :=
  (0 ≤ s.visible_map c.1 c.2 ∧ s.visible_map c.1 c.2 ≤ 8) ∧
    s.visible_map c.1 c.2 - (scan s c.1 c.2).marked_mines ≤ 0 ∧ (scan s c.1 c.2).unknown_cells > 0

instance (s : Game) (c : Int × Int) : Decidable (safeRule s c) := by
  unfold safeRule; infer_instance

/-- The second rule of the propagation loop fires at the cell `c`:
`remaining_mines == unknown_cells > 0`. -/
def mineRule (s : Game) (c : Int × Int) : Prop :=
  (0 ≤ s.visible_map c.1 c.2 ∧ s.visible_map c.1 c.2 ≤ 8) ∧
    s.visible_map c.1 c.2 - (scan s c.1 c.2).marked_mines = (scan s c.1 c.2).unknown_cells ∧
    (scan s c.1 c.2).unknown_cells > 0

instance (s : Game) (c : Int × Int) : Decidable (mineRule s c) := by
  unfold mineRule; infer_instance

/-- Some cell of `L` forces `n` safe in the propagation loop. -/
def forcedSafeIn (s : Game) (L : List (Int × Int)) (n : Int × Int) : Prop :=
  ∃ c ∈ L, safeRule s c ∧ n ∈ (scan s c.1 c.2).neighbors

instance (s : Game) (L : List (Int × Int)) (n : Int × Int) : Decidable (forcedSafeIn s L n) := by
  unfold forcedSafeIn; infer_instance

/-- Some cell of `L` forces `n` to be a mine in the propagation loop. -/
def forcedMineIn (s : Game) (L : List (Int × Int)) (n : Int × Int) : Prop :=
  ∃ c ∈ L, mineRule s c ∧ n ∈ (scan s c.1 c.2).neighbors

instance (s : Game) (L : List (Int × Int)) (n : Int × Int) : Decidable (forcedMineIn s L n) := by
  unfold forcedMineIn; infer_instance

/-- The pair `(x, y)` of `numbered_cells` entries writes `0.0` at `n`. -/
def pairSafe (x y : Numbered) (n : Int × Int) : Prop :=
  isSubset x.neighbors y.neighbors = true ∧ x.mines = y.mines ∧
    n ∈ getDifference y.neighbors x.neighbors

instance (x y : Numbered) (n : Int × Int) : Decidable (pairSafe x y n) := by
  unfold pairSafe; infer_instance

/-- The pair `(x, y)` of `numbered_cells` entries writes `1.0` at `n`. -/
def pairMine (x y : Numbered) (n : Int × Int) : Prop :=
  isSubset x.neighbors y.neighbors = true ∧ x.mines ≠ y.mines ∧
    y.mines = x.mines + (y.neighbors.length : Int) - (x.neighbors.length : Int) ∧
    n ∈ getDifference y.neighbors x.neighbors

instance (x y : Numbered) (n : Int × Int) : Decidable (pairMine x y n) := by
  unfold pairMine; infer_instance

/-- The cell `n` is a hidden-unmarked neighbour of some revealed cell. -/
def covered (s : Game) (n : Int × Int) : Prop :=
  ∃ c ∈ cells s.rows s.columns,
    (0 ≤ s.visible_map c.1 c.2 ∧ s.visible_map c.1 c.2 ≤ 8) ∧ n ∈ (scan s c.1 c.2).neighbors

instance (s : Game) (n : Int × Int) : Decidable (covered s n) := by
  unfold covered; infer_instance

/-- What a probability says about a hidden-unmarked cell under a placement:
untouched (`0.5`), or forced to `0.0` on a non-mine, or forced to `1.0` on a
mine; a forced cell is next to a revealed cell. -/
def cellInv (s : Game) (mine : Int → Int → Bool) (q : Int → Int → ℚ) (n : Int × Int) : Prop :=
  q n.1 n.2 = half ∨ (q n.1 n.2 = 0 ∧ mine n.1 n.2 = false ∧ covered s n) ∨
    (q n.1 n.2 = 1 ∧ mine n.1 n.2 = true ∧ covered s n)

/-- The mine placement with mines exactly at the listed cells. -/
def minesAt (l : List (Int × Int)) : Int → Int → Bool :=
  fun i j => decide ((i, j) ∈ l)

/-- The hidden-unmarked in-bounds neighbours of `c`, in the order the neighbour
loop meets them: the set `U` of a revealed cell. -/
def hiddenNeighbours (s : Game) (c : Int × Int) : List (Int × Int) :=
  (nbrs c.1 c.2).filter (isHU s)

/-- The number of marked in-bounds neighbours of `c`. -/
def markedNeighbours (s : Game) (c : Int × Int) : Nat :=
  (nbrs c.1 c.2).countP (isMk s)

/-- An auto-clear candidate: a revealed cell with count in `lo..8` whose count is
the number of its marked neighbours and which has a hidden-unmarked neighbour. -/
def autoClearCandidate (lo : Int) (s : Game) (c : Int × Int) : Prop :=
  lo ≤ s.visible_map c.1 c.2 ∧ s.visible_map c.1 c.2 ≤ 8 ∧
    s.visible_map c.1 c.2 = (markedNeighbours s c : Nat) ∧ hiddenNeighbours s c ≠ []

instance (lo : Int) (s : Game) (c : Int × Int) : Decidable (autoClearCandidate lo s c) := by
  unfold autoClearCandidate; infer_instance

/-- A revealed cell (count `0..8`) with `count − marked == |U| > 0`. -/
def markCandidate (s : Game) (c : Int × Int) : Prop :=
  0 ≤ s.visible_map c.1 c.2 ∧ s.visible_map c.1 c.2 ≤ 8 ∧
    s.visible_map c.1 c.2 - (markedNeighbours s c : Nat) = ((hiddenNeighbours s c).length : Nat) ∧
    0 < (hiddenNeighbours s c).length

instance (s : Game) (c : Int × Int) : Decidable (markCandidate s c) := by
  unfold markCandidate; infer_instance

/-- Some cell of the grid is hidden and not marked. -/
def hasHiddenUnmarked (s : Game) : Prop :=
  ∃ i j : Int, 0 ≤ i ∧ i < s.rows ∧ 0 ≤ j ∧ j < s.columns ∧
    s.visible_map i j = -1 ∧ s.is_marked i j = false

/-- A game state from the rows of `visible_map` and the list of marked cells,
all probabilities `0.5`. -/
def markedBoard (rows columns : Nat) (vm : List (List Int)) (marks : List (Int × Int)) : Game :=
  { board rows columns vm with is_marked := fun i j => decide ((i, j) ∈ marks) }

/-- The remaining mine count of a revealed cell: `count − (number of marked neighbours)`. -/
def remainingMines (s : Game) (c : Int × Int) : Int :=
  s.visible_map c.1 c.2 - (markedNeighbours s c : Nat)

/-- A constraint: a revealed cell with count `1..8`, a positive remaining mine
count and at least one hidden-unmarked neighbour. -/
def isConstraint (s : Game) (c : Int × Int) : Prop :=
  1 ≤ s.visible_map c.1 c.2 ∧ s.visible_map c.1 c.2 ≤ 8 ∧ 0 < remainingMines s c ∧
    hiddenNeighbours s c ≠ []

instance (s : Game) (c : Int × Int) : Decidable (isConstraint s c) := by
  unfold isConstraint; infer_instance

/-- Assignment `grid[c.first][c.second] = v` on any of the three grids. -/
def setCell {α : Type} (g : Int → Int → α) (c : Int × Int) (v : α) : Int → Int → α :=
  fun i j => if i = c.1 ∧ j = c.2 then v else g i j

/-- The function `InitGame`: the three `assign` calls and the counters, then the
first move read from the input, `Execute(first_row, first_column, 0)`. -/
def InitGame (rows columns : Nat) (first_row first_column : Int) : List Action × Game :=
  ([⟨first_row, first_column, 0⟩],
    { rows := rows, columns := columns, visible_map := fun _ _ => -1,
      is_marked := fun _ _ => false, mine_probability := fun _ _ => half,
      total_cells_visited := 0, total_mines_marked := 0, first_move := false })

/-- The character `line[j]` of the `i`-th line of a snapshot. -/
def charAt (snapshot : List (List Char)) (c : Int × Int) : Char :=
  (snapshot.getD c.1.toNat []).getD c.2.toNat (Char.ofNat 0)

/-- The body of the double loop of `ReadMap` at the cell `c`. -/
def ingestCell (snapshot : List (List Char)) (s : Game) (c : Int × Int) : Game :=
  let ch := charAt snapshot c
  if ch = '?' then
    { s with visible_map := setCell s.visible_map c (-1) }
  else if ch = '@' then
    { s with is_marked := setCell s.is_marked c true, visible_map := setCell s.visible_map c (-1) }
  else if ch = 'X' then
    { s with visible_map := setCell s.visible_map c 9 }
  else if '0' ≤ ch ∧ ch ≤ '8' then
    { s with visible_map := setCell s.visible_map c ((ch.toNat : Int) - ('0'.toNat : Int)),
             is_marked := setCell s.is_marked c false,
             total_cells_visited := s.total_cells_visited + 1 }
  else s

/-- The reading loop of `ReadMap`, before the call of `updateMineProbabilities`. -/
def ingest (snapshot : List (List Char)) (s : Game) : Game :=
  (cells s.rows s.columns).foldl (ingestCell snapshot) s

/-- The function `ReadMap` on the lines of a snapshot; `none` when the
propagation loop needs more than `fuel` iterations. -/
def ReadMap (fuel : Nat) (snapshot : List (List Char)) (s : Game) : Option Game :=
  updateMineProbabilities fuel (ingest snapshot s)

/-- A sequence of `ReadMap` calls, each with its own fuel. -/
def readMaps : List (Nat × List (List Char)) → Game → Option Game
  | [], s => some s
  | (fuel, snapshot) :: rest, s =>
    match ReadMap fuel snapshot s with
    | none => none
    | some s' => readMaps rest s'

/-- Every entry of a probability grid is `0.0`, `0.5` or `1.0`. -/
def threeValued (p : Int → Int → ℚ) : Prop :=
  ∀ i j : Int, p i j = 0 ∨ p i j = half ∨ p i j = 1

/-- A conflict cell: a hidden-unmarked cell that is a neighbour both of a
revealed cell with `max(0, count − marked) == 0` and of a revealed cell with
`count − marked == |U| > 0`. -/
def conflictCell (s : Game) (n : Int × Int) : Prop :=
  isHU s n = true ∧
  (∃ c ∈ cells s.rows s.columns, (0 ≤ s.visible_map c.1 c.2 ∧ s.visible_map c.1 c.2 ≤ 8) ∧
    max 0 (s.visible_map c.1 c.2 - (markedNeighbours s c : Nat)) = 0 ∧ n ∈ nbrs c.1 c.2) ∧
  (∃ c ∈ cells s.rows s.columns, (0 ≤ s.visible_map c.1 c.2 ∧ s.visible_map c.1 c.2 ≤ 8) ∧
    s.visible_map c.1 c.2 - (markedNeighbours s c : Nat) = ((hiddenNeighbours s c).length : Nat) ∧
    0 < (hiddenNeighbours s c).length ∧ n ∈ nbrs c.1 c.2)

/-! ## The iteration space -/

theorem mem_cells {R C : Nat} {c : Int × Int} :
    c ∈ cells R C ↔ 0 ≤ c.1 ∧ c.1 < R ∧ 0 ≤ c.2 ∧ c.2 < C := by
  obtain ⟨a, b⟩ := c
  simp only [cells, List.mem_flatMap, List.mem_map, List.mem_range, Prod.mk.injEq]
  constructor
  · rintro ⟨i, hi, j, hj, rfl, rfl⟩
    omega
  · rintro ⟨h1, h2, h3, h4⟩
    exact ⟨a.toNat, by omega, b.toNat, by omega, by omega, by omega⟩

theorem cells_sorted (R C : Nat) : (cells R C).Pairwise rowMajorLt := by
  unfold cells
  rw [List.pairwise_flatMap]
  constructor
  · intro i _
    rw [List.pairwise_map]
    refine (List.pairwise_lt_range C).imp ?_
    intro a b hab
    right
    refine ⟨rfl, ?_⟩
    show (a : Int) < b
    exact_mod_cast hab
  · refine (List.pairwise_lt_range R).imp ?_
    intro a b hab x hx y hy
    simp only [List.mem_map, List.mem_range] at hx hy
    obtain ⟨_, _, rfl⟩ := hx
    obtain ⟨_, _, rfl⟩ := hy
    left
    show (a : Int) < b
    exact_mod_cast hab

/-! ## The neighbour loop -/

theorem scan_foldl (s : Game) (i j : Int) (ds : List (Int × Int)) (acc : Scan) :
    ds.foldl (scanStep s i j) acc =
      ⟨acc.neighbors ++ (ds.map fun d => (i + d.1, j + d.2)).filter (isHU s),
        acc.marked_mines + ((ds.map fun d => (i + d.1, j + d.2)).countP (isMk s) : Nat),
        acc.unknown_cells + (((ds.map fun d => (i + d.1, j + d.2)).filter (isHU s)).length : Nat)⟩ := by
  induction ds generalizing acc with
  | nil => simp
  | cons d ds ih =>
    rw [List.foldl_cons, ih]
    by_cases hb : 0 ≤ i + d.1 ∧ i + d.1 < s.rows ∧ 0 ≤ j + d.2 ∧ j + d.2 < s.columns
    · by_cases hm : s.is_marked (i + d.1) (j + d.2) = true
      · simp [scanStep, isHU, isMk, inBounds, hb, hm, List.countP_cons]
        omega
      · by_cases hv : s.visible_map (i + d.1) (j + d.2) = -1
        · simp [scanStep, isHU, isMk, inBounds, hb, hm, hv, List.countP_cons]
          omega
        · simp [scanStep, isHU, isMk, inBounds, hb, hm, hv, List.countP_cons]
    · simp [scanStep, isHU, isMk, inBounds, hb, List.countP_cons]

theorem scan_neighbors (s : Game) (i j : Int) :
    (scan s i j).neighbors = (nbrs i j).filter (isHU s) := by
  simp [scan, nbrs, scan_foldl]

theorem scan_marked (s : Game) (i j : Int) :
    (scan s i j).marked_mines = ((nbrs i j).countP (isMk s) : Nat) := by
  simp [scan, nbrs, scan_foldl]

theorem scan_unknown (s : Game) (i j : Int) :
    (scan s i j).unknown_cells = ((scan s i j).neighbors.length : Nat) := by
  simp [scan, nbrs, scan_foldl]

theorem nbrs_nodup (i j : Int) : (nbrs i j).Nodup := by
  unfold nbrs
  refine List.Nodup.map ?_ (by decide)
  intro a b h
  simp only [Prod.mk.injEq] at h
  ext <;> omega

theorem scan_neighbors_nodup (s : Game) (i j : Int) : (scan s i j).neighbors.Nodup := by
  rw [scan_neighbors]
  exact (nbrs_nodup i j).filter _

theorem mem_scan_neighbors {s : Game} {i j : Int} {c : Int × Int} :
    c ∈ (scan s i j).neighbors ↔ c ∈ nbrs i j ∧ isHU s c = true := by
  rw [scan_neighbors, List.mem_filter]

theorem isHU_iff {s : Game} {c : Int × Int} :
    isHU s c = true ↔ inBounds s c ∧ s.is_marked c.1 c.2 = false ∧ s.visible_map c.1 c.2 = -1 := by
  simp [isHU]

theorem inBounds_iff_mem {s : Game} {c : Int × Int} :
    inBounds s c ↔ c ∈ cells s.rows s.columns := by
  rw [mem_cells]; rfl
/-! ## Counting mines around a revealed cell -/

theorem count_split {s : Game} {mine : Int → Int → Bool} (hne : NoExploded s)
    (hc : Consistent s mine) (L : List (Int × Int)) :
    L.countP (fun c => decide (inBounds s c) && mine c.1 c.2) =
      L.countP (isMk s) + (L.filter (isHU s)).countP (fun c => mine c.1 c.2) := by
  induction L with
  | nil => simp
  | cons a L ih =>
    by_cases hb : inBounds s a
    · have hmem := inBounds_iff_mem.mp hb
      obtain ⟨h1, h2⟩ := hc a hmem
      obtain ⟨h3, h4⟩ := hne a hmem
      by_cases hm : s.is_marked a.1 a.2 = true
      · have hmine := h1 hm
        simp [List.countP_cons, List.filter_cons, isHU, isMk, hb, hm, hmine, ih]
        omega
      · by_cases hv : s.visible_map a.1 a.2 = -1
        · simp [List.countP_cons, List.filter_cons, isHU, isMk, hb, hm, hv, ih]
          omega
        · have hmine := (h2 ⟨by omega, h4⟩).1
          simp [List.countP_cons, List.filter_cons, isHU, isMk, hb, hm, hv, hmine, ih]
    · simp [List.countP_cons, List.filter_cons, isHU, isMk, hb, ih]

theorem revealed_count {s : Game} {mine : Int → Int → Bool} (hne : NoExploded s)
    (hc : Consistent s mine) {c : Int × Int} (hmem : c ∈ cells s.rows s.columns)
    (hv : 0 ≤ s.visible_map c.1 c.2 ∧ s.visible_map c.1 c.2 ≤ 8) :
    s.visible_map c.1 c.2 =
      (scan s c.1 c.2).marked_mines +
        (((scan s c.1 c.2).neighbors.countP fun n => mine n.1 n.2 : Nat) : Int) := by
  rw [((hc c hmem).2 hv).2, scan_marked, scan_neighbors, mineCount, count_split hne hc]
  push_cast
  rfl

theorem rule0_sound {s : Game} {mine : Int → Int → Bool} (hne : NoExploded s)
    (hc : Consistent s mine) {c : Int × Int} (hmem : c ∈ cells s.rows s.columns)
    (hv : 0 ≤ s.visible_map c.1 c.2 ∧ s.visible_map c.1 c.2 ≤ 8)
    (h0 : s.visible_map c.1 c.2 - (scan s c.1 c.2).marked_mines ≤ 0) :
    ∀ n ∈ (scan s c.1 c.2).neighbors, mine n.1 n.2 = false := by
  have h := revealed_count hne hc hmem hv
  have hz : (scan s c.1 c.2).neighbors.countP (fun n => mine n.1 n.2) = 0 := by omega
  intro n hn
  have := (List.countP_eq_zero.mp hz) n hn
  simpa using this

theorem rule1_sound {s : Game} {mine : Int → Int → Bool} (hne : NoExploded s)
    (hc : Consistent s mine) {c : Int × Int} (hmem : c ∈ cells s.rows s.columns)
    (hv : 0 ≤ s.visible_map c.1 c.2 ∧ s.visible_map c.1 c.2 ≤ 8)
    (h1 : s.visible_map c.1 c.2 - (scan s c.1 c.2).marked_mines = (scan s c.1 c.2).unknown_cells) :
    ∀ n ∈ (scan s c.1 c.2).neighbors, mine n.1 n.2 = true := by
  have h := revealed_count hne hc hmem hv
  rw [scan_unknown] at h1
  have hz : (scan s c.1 c.2).neighbors.countP (fun n => mine n.1 n.2) =
      (scan s c.1 c.2).neighbors.length := by omega
  intro n hn
  exact (List.countP_eq_length.mp hz) n hn
/-! ## Writes to `mine_probability` -/

theorem foldl_setProb (v : ℚ) (L : List (Int × Int)) (p : Int → Int → ℚ) (i j : Int) :
    (L.foldl (fun q c => setProb q c v) p) i j = if (i, j) ∈ L then v else p i j := by
  induction L using List.reverseRecOn with
  | nil => simp
  | append_singleton L x ih =>
    rw [List.foldl_append, List.foldl_cons, List.foldl_nil]
    simp only [setProb, ih, List.mem_append, List.mem_singleton]
    by_cases h : i = x.1 ∧ j = x.2
    · have : (i, j) = x := Prod.ext h.1 h.2
      simp [h, this]
    · have : (i, j) ≠ x := fun e => h ⟨by rw [← e], by rw [← e]⟩
      simp [h, this]

theorem force_fst (v : ℚ) (st : (Int → Int → ℚ) × Bool) (c : Int × Int) (i j : Int) :
    (force v st c).1 i j = if (i, j) = c then v else st.1 i j := by
  unfold force
  by_cases h : st.1 c.1 c.2 = v
  · by_cases e : (i, j) = c
    · subst e; simp [h]
    · simp [h, e]
  · by_cases e : (i, j) = c
    · subst e; simp [h, setProb]
    · have : ¬ (i = c.1 ∧ j = c.2) := fun hh => e (Prod.ext hh.1 hh.2)
      simp [h, e, setProb, this]

theorem foldl_force_fst (v : ℚ) (L : List (Int × Int)) (st : (Int → Int → ℚ) × Bool) (i j : Int) :
    (L.foldl (force v) st).1 i j = if (i, j) ∈ L then v else st.1 i j := by
  induction L using List.reverseRecOn with
  | nil => simp
  | append_singleton L x ih =>
    rw [List.foldl_append, List.foldl_cons, List.foldl_nil, force_fst, ih]
    by_cases e : (i, j) = x
    · simp [e]
    · simp [e]

theorem foldl_force_id (v : ℚ) (L : List (Int × Int)) (st : (Int → Int → ℚ) × Bool)
    (h : ∀ c ∈ L, st.1 c.1 c.2 = v) : L.foldl (force v) st = st := by
  induction L with
  | nil => rfl
  | cons x L ih =>
    have hx : force v st x = st := by
      unfold force; simp [h x (List.mem_cons_self _ _)]
    rw [List.foldl_cons, hx]
    exact ih fun c hc => h c (List.mem_cons_of_mem _ hc)

theorem foldl_force_snd (v : ℚ) (L : List (Int × Int)) (st : (Int → Int → ℚ) × Bool)
    (h : (L.foldl (force v) st).2 = false) : st.2 = false ∧ ∀ c ∈ L, st.1 c.1 c.2 = v := by
  induction L generalizing st with
  | nil => exact ⟨h, by simp⟩
  | cons x L ih =>
    rw [List.foldl_cons] at h
    obtain ⟨h1, h2⟩ := ih _ h
    by_cases hx : st.1 x.1 x.2 = v
    · have e : force v st x = st := by unfold force; simp [hx]
      rw [e] at h1 h2
      refine ⟨h1, ?_⟩
      intro c hc
      rcases List.mem_cons.mp hc with rfl | hc
      · exact hx
      · exact h2 c hc
    · have e : (force v st x).2 = true := by unfold force; simp [hx]
      rw [e] at h1
      exact absurd h1 (by simp)

/-! ## The propagation loop -/

theorem scanCell_eq (s : Game) (st : (Int → Int → ℚ) × Bool) (c : Int × Int) :
    scanCell s st c =
      if safeRule s c then (scan s c.1 c.2).neighbors.foldl (force 0) st
      else if mineRule s c then (scan s c.1 c.2).neighbors.foldl (force 1) st
      else st := by
  unfold scanCell safeRule mineRule
  by_cases hv : 0 ≤ s.visible_map c.1 c.2 ∧ s.visible_map c.1 c.2 ≤ 8
  · simp only [hv, if_true, true_and]
    by_cases hu : (scan s c.1 c.2).unknown_cells > 0
    · by_cases hneg : s.visible_map c.1 c.2 - (scan s c.1 c.2).marked_mines < 0
      · have h1 : s.visible_map c.1 c.2 - (scan s c.1 c.2).marked_mines ≤ 0 := by omega
        simp [hneg, hu, h1]
      · by_cases h0 : s.visible_map c.1 c.2 - (scan s c.1 c.2).marked_mines = 0
        · simp [h0, hu]
        · have h1 : ¬ s.visible_map c.1 c.2 - (scan s c.1 c.2).marked_mines ≤ 0 := by omega
          simp [hneg, hu, h0, h1]
    · simp [hu]
  · simp [hv]

theorem not_safeRule_and_mineRule {s : Game} {c : Int × Int} (h0 : safeRule s c)
    (h1 : mineRule s c) : False := by
  obtain ⟨_, a, b⟩ := h0
  obtain ⟨_, d, _⟩ := h1
  omega

theorem scanCell_fst (s : Game) (st : (Int → Int → ℚ) × Bool) (c : Int × Int) (i j : Int) :
    (scanCell s st c).1 i j =
      if safeRule s c ∧ (i, j) ∈ (scan s c.1 c.2).neighbors then 0
      else if mineRule s c ∧ (i, j) ∈ (scan s c.1 c.2).neighbors then 1
      else st.1 i j := by
  rw [scanCell_eq]
  by_cases h0 : safeRule s c
  · have h1 : ¬ mineRule s c := fun h1 => not_safeRule_and_mineRule h0 h1
    simp [h0, h1, foldl_force_fst]
  · by_cases h1 : mineRule s c
    · simp [h0, h1, foldl_force_fst]
    · simp [h0, h1]
theorem forcedSafeIn_append {s : Game} {L : List (Int × Int)} {x n : Int × Int} :
    forcedSafeIn s (L ++ [x]) n ↔
      forcedSafeIn s L n ∨ (safeRule s x ∧ n ∈ (scan s x.1 x.2).neighbors) := by
  simp [forcedSafeIn, or_and_right, exists_or]

theorem forcedMineIn_append {s : Game} {L : List (Int × Int)} {x n : Int × Int} :
    forcedMineIn s (L ++ [x]) n ↔
      forcedMineIn s L n ∨ (mineRule s x ∧ n ∈ (scan s x.1 x.2).neighbors) := by
  simp [forcedMineIn, or_and_right, exists_or]

theorem foldl_scanCell_fst (s : Game) (L : List (Int × Int)) (st : (Int → Int → ℚ) × Bool)
    (hnc : ∀ n, forcedSafeIn s L n → forcedMineIn s L n → False) (i j : Int) :
    (L.foldl (scanCell s) st).1 i j =
      if forcedSafeIn s L (i, j) then 0 else if forcedMineIn s L (i, j) then 1 else st.1 i j := by
  induction L using List.reverseRecOn with
  | nil => simp [forcedSafeIn, forcedMineIn]
  | append_singleton L x ih =>
    have hnc' : ∀ n, forcedSafeIn s L n → forcedMineIn s L n → False := fun n a b =>
      hnc n (forcedSafeIn_append.mpr (Or.inl a)) (forcedMineIn_append.mpr (Or.inl b))
    rw [List.foldl_append, List.foldl_cons, List.foldl_nil, scanCell_fst, ih hnc']
    by_cases a : safeRule s x ∧ (i, j) ∈ (scan s x.1 x.2).neighbors
    · have : forcedSafeIn s (L ++ [x]) (i, j) := forcedSafeIn_append.mpr (Or.inr a)
      simp [a, this]
    · by_cases b : mineRule s x ∧ (i, j) ∈ (scan s x.1 x.2).neighbors
      · have hb : forcedMineIn s (L ++ [x]) (i, j) := forcedMineIn_append.mpr (Or.inr b)
        have ha : ¬ forcedSafeIn s (L ++ [x]) (i, j) := fun h => hnc _ h hb
        rw [if_neg a, if_pos b, if_neg ha, if_pos hb]
      · rw [if_neg a, if_neg b]
        have e0 : forcedSafeIn s (L ++ [x]) (i, j) ↔ forcedSafeIn s L (i, j) := by
          rw [forcedSafeIn_append]; tauto
        have e1 : forcedMineIn s (L ++ [x]) (i, j) ↔ forcedMineIn s L (i, j) := by
          rw [forcedMineIn_append]; tauto
        simp only [e0, e1]

theorem scanCell_id (s : Game) (st : (Int → Int → ℚ) × Bool) (x : Int × Int)
    (h0 : safeRule s x → ∀ n ∈ (scan s x.1 x.2).neighbors, st.1 n.1 n.2 = 0)
    (h1 : mineRule s x → ∀ n ∈ (scan s x.1 x.2).neighbors, st.1 n.1 n.2 = 1) :
    scanCell s st x = st := by
  rw [scanCell_eq]
  by_cases a : safeRule s x
  · rw [if_pos a]; exact foldl_force_id _ _ _ (h0 a)
  · rw [if_neg a]
    by_cases b : mineRule s x
    · rw [if_pos b]; exact foldl_force_id _ _ _ (h1 b)
    · rw [if_neg b]

theorem foldl_scanCell_id (s : Game) (L : List (Int × Int)) (st : (Int → Int → ℚ) × Bool)
    (h0 : ∀ n, forcedSafeIn s L n → st.1 n.1 n.2 = 0)
    (h1 : ∀ n, forcedMineIn s L n → st.1 n.1 n.2 = 1) :
    L.foldl (scanCell s) st = st := by
  induction L with
  | nil => rfl
  | cons x L ih =>
    have hx : scanCell s st x = st :=
      scanCell_id s st x
        (fun a n hn => h0 n ⟨x, List.mem_cons_self _ _, a, hn⟩)
        (fun b n hn => h1 n ⟨x, List.mem_cons_self _ _, b, hn⟩)
    rw [List.foldl_cons, hx]
    refine ih (fun n hn => h0 n ?_) (fun n hn => h1 n ?_)
    · obtain ⟨c, hc, r⟩ := hn
      exact ⟨c, List.mem_cons_of_mem _ hc, r⟩
    · obtain ⟨c, hc, r⟩ := hn
      exact ⟨c, List.mem_cons_of_mem _ hc, r⟩

theorem scanCell_snd (s : Game) (st : (Int → Int → ℚ) × Bool) (x : Int × Int)
    (h : (scanCell s st x).2 = false) :
    st.2 = false ∧ (safeRule s x → ∀ n ∈ (scan s x.1 x.2).neighbors, st.1 n.1 n.2 = 0) ∧
      (mineRule s x → ∀ n ∈ (scan s x.1 x.2).neighbors, st.1 n.1 n.2 = 1) := by
  rw [scanCell_eq] at h
  by_cases a : safeRule s x
  · rw [if_pos a] at h
    obtain ⟨h1, h2⟩ := foldl_force_snd _ _ _ h
    exact ⟨h1, fun _ => h2, fun b => (not_safeRule_and_mineRule a b).elim⟩
  · rw [if_neg a] at h
    by_cases b : mineRule s x
    · rw [if_pos b] at h
      obtain ⟨h1, h2⟩ := foldl_force_snd _ _ _ h
      exact ⟨h1, fun a' => (a a').elim, fun _ => h2⟩
    · rw [if_neg b] at h
      exact ⟨h, fun a' => (a a').elim, fun b' => (b b').elim⟩

theorem foldl_scanCell_snd (s : Game) (L : List (Int × Int)) (st : (Int → Int → ℚ) × Bool)
    (h : (L.foldl (scanCell s) st).2 = false) :
    st.2 = false ∧ (∀ n, forcedSafeIn s L n → st.1 n.1 n.2 = 0) ∧
      (∀ n, forcedMineIn s L n → st.1 n.1 n.2 = 1) := by
  induction L generalizing st with
  | nil => exact ⟨h, fun n hn => by simp [forcedSafeIn] at hn, fun n hn => by simp [forcedMineIn] at hn⟩
  | cons x L ih =>
    rw [List.foldl_cons] at h
    obtain ⟨k1, k2, k3⟩ := ih _ h
    obtain ⟨m1, m2, m3⟩ := scanCell_snd s st x k1
    have e : scanCell s st x = st := scanCell_id s st x m2 m3
    rw [e] at k2 k3
    refine ⟨m1, ?_, ?_⟩
    · rintro n ⟨c, hc, a, hn⟩
      rcases List.mem_cons.mp hc with rfl | hc
      · exact m2 a n hn
      · exact k2 n ⟨c, hc, a, hn⟩
    · rintro n ⟨c, hc, b, hn⟩
      rcases List.mem_cons.mp hc with rfl | hc
      · exact m3 b n hn
      · exact k3 n ⟨c, hc, b, hn⟩

/-- Without conflicting deductions the loop stops within two passes, on the
result of its first pass. -/
theorem propagate_of_noConflict (s : Game)
    (hnc : ∀ n, forcedSafeIn s (cells s.rows s.columns) n →
      forcedMineIn s (cells s.rows s.columns) n → False)
    (p : Int → Int → ℚ) (fuel : Nat) (hf : 2 ≤ fuel) :
    propagate s fuel p = some (pass s p).1 := by
  obtain ⟨k, rfl⟩ : ∃ k, fuel = k + 2 := ⟨fuel - 2, by omega⟩
  rw [propagate]
  by_cases hch : (pass s p).2 = true
  · simp only [hch, if_true]
    have hid : pass s (pass s p).1 = ((pass s p).1, false) := by
      unfold pass
      apply foldl_scanCell_id
      · intro n hn
        show ((cells s.rows s.columns).foldl (scanCell s) (p, false)).1 n.1 n.2 = 0
        rw [foldl_scanCell_fst s _ _ hnc, if_pos hn]
      · intro n hn
        have hn0 : ¬ forcedSafeIn s (cells s.rows s.columns) n := fun h => hnc n h hn
        show ((cells s.rows s.columns).foldl (scanCell s) (p, false)).1 n.1 n.2 = 1
        rw [foldl_scanCell_fst s _ _ hnc, if_neg hn0, if_pos hn]
    rw [propagate, hid]
    simp
  · simp [hch]

/-- A cell that one revealed cell forces safe and another forces to be a mine
keeps the loop running for ever. -/
theorem propagate_of_conflict (s : Game) (n : Int × Int)
    (h0 : forcedSafeIn s (cells s.rows s.columns) n)
    (h1 : forcedMineIn s (cells s.rows s.columns) n) (fuel : Nat) (p : Int → Int → ℚ) :
    propagate s fuel p = none := by
  induction fuel generalizing p with
  | zero => rfl
  | succ k ih =>
    rw [propagate]
    have hch : (pass s p).2 = true := by
      by_contra hc
      have hc' : (pass s p).2 = false := by simpa using hc
      obtain ⟨_, a, b⟩ := foldl_scanCell_snd s _ _ hc'
      have e0 := a n h0
      have e1 := b n h1
      rw [e0] at e1
      exact absurd e1 (by norm_num)
    simp only [hch, if_true]
    exact ih _

theorem setProb_ne (p : Int → Int → ℚ) (v : ℚ) {c : Int × Int} {i j : Int} (h : (i, j) ≠ c) :
    setProb p c v i j = p i j := by
  have : ¬ (i = c.1 ∧ j = c.2) := fun hh => h (Prod.ext hh.1 hh.2)
  simp [setProb, this]

theorem resetProbabilities_apply (s : Game) (i j : Int) :
    resetProbabilities s i j = if isHU s (i, j) = true then half else s.mine_probability i j := by
  unfold resetProbabilities
  have key : ∀ (L : List (Int × Int)) (p : Int → Int → ℚ),
      (L.foldl (fun p c => if s.visible_map c.1 c.2 = -1 ∧ ¬ s.is_marked c.1 c.2 then
        setProb p c half else p) p) i j =
      if (i, j) ∈ L ∧ s.visible_map i j = -1 ∧ s.is_marked i j = false then half else p i j := by
    intro L
    induction L using List.reverseRecOn with
    | nil => simp
    | append_singleton L x ih =>
      intro p
      rw [List.foldl_append, List.foldl_cons, List.foldl_nil]
      by_cases hx : s.visible_map x.1 x.2 = -1 ∧ ¬ s.is_marked x.1 x.2
      · rw [if_pos hx]
        by_cases e : (i, j) = x
        · subst e
          simp at hx
          simp [setProb, hx]
        · rw [setProb_ne _ _ e, ih]
          simp [e]
      · rw [if_neg hx, ih]
        by_cases e : (i, j) = x
        · subst e
          have : ¬ (s.visible_map i j = -1 ∧ s.is_marked i j = false) := by simpa using hx
          by_cases hL : (i, j) ∈ L <;> simp [hL, this]
        · simp [e]
  rw [key]
  simp only [isHU_iff, inBounds_iff_mem]
  by_cases h : (i, j) ∈ cells s.rows s.columns ∧ s.visible_map i j = -1 ∧ s.is_marked i j = false
  · rw [if_pos h, if_pos ⟨h.1, h.2.2, h.2.1⟩]
  · rw [if_neg h, if_neg (fun k => h ⟨k.1, k.2.2, k.2.1⟩)]

/-! ## The pairwise subset analysis -/

theorem isSubset_iff {a b : List (Int × Int)} : isSubset a b = true ↔ ∀ c ∈ a, c ∈ b := by
  unfold isSubset
  simp only [List.all_eq_true, List.any_eq_true, Bool.and_eq_true, beq_iff_eq]
  constructor
  · intro h c hc
    obtain ⟨d, hd, e1, e2⟩ := h c hc
    have : c = d := Prod.ext e1 e2
    rw [this]; exact hd
  · intro h c hc
    exact ⟨c, h c hc, rfl, rfl⟩

theorem any_eq_mem (a : List (Int × Int)) (c : Int × Int) :
    (a.any fun acell => c.1 == acell.1 && c.2 == acell.2) = decide (c ∈ a) := by
  rw [Bool.eq_iff_iff]
  simp only [List.any_eq_true, Bool.and_eq_true, beq_iff_eq, decide_eq_true_eq]
  constructor
  · rintro ⟨d, hd, e1, e2⟩
    have : c = d := Prod.ext e1 e2
    rw [this]; exact hd
  · intro h
    exact ⟨c, h, rfl, rfl⟩

theorem getDifference_eq (b a : List (Int × Int)) :
    getDifference b a = b.filter fun c => !decide (c ∈ a) := by
  unfold getDifference
  congr 1
  funext c
  rw [any_eq_mem]

theorem mem_getDifference {b a : List (Int × Int)} {c : Int × Int} :
    c ∈ getDifference b a ↔ c ∈ b ∧ c ∉ a := by
  rw [getDifference_eq]
  simp [List.mem_filter]

theorem analysePair_apply (x y : Numbered) (p : Int → Int → ℚ) (i j : Int) :
    analysePair x y p i j =
      if pairSafe x y (i, j) then 0 else if pairMine x y (i, j) then 1 else p i j := by
  unfold analysePair pairSafe pairMine
  by_cases hs : isSubset x.neighbors y.neighbors = true
  · by_cases he : x.mines = y.mines
    · simp [hs, he, foldl_setProb]
    · by_cases hm : y.mines = x.mines + (y.neighbors.length : Int) - (x.neighbors.length : Int)
      · simp only [hs, he, if_true, if_false, foldl_setProb, true_and, false_and, ← hm, ne_eq,
          not_false_eq_true]
      · simp [hs, he, hm]
  · simp [hs]

theorem countP_diff {a b : List (Int × Int)} (ha : a.Nodup) (hb : b.Nodup)
    (hsub : ∀ c ∈ a, c ∈ b) (q : Int × Int → Bool) :
    b.countP q = a.countP q + (getDifference b a).countP q := by
  rw [getDifference_eq, List.countP_eq_countP_filter_add b q (fun c => decide (c ∈ a))]
  have hperm : (b.filter fun c => decide (c ∈ a)).Perm a := by
    rw [List.perm_ext_iff_of_nodup (hb.filter _) ha]
    intro c
    simp only [List.mem_filter, decide_eq_true_eq]
    exact ⟨fun h => h.2, fun h => ⟨hsub c h, h⟩⟩
  rw [hperm.countP_eq]

theorem length_diff {a b : List (Int × Int)} (ha : a.Nodup) (hb : b.Nodup)
    (hsub : ∀ c ∈ a, c ∈ b) : b.length = a.length + (getDifference b a).length := by
  have := countP_diff ha hb hsub (fun _ => true)
  simpa using this

theorem mem_numbered_cells {s : Game} {x : Numbered} (hx : x ∈ numbered_cells s) :
    ∃ c ∈ cells s.rows s.columns, (1 ≤ s.visible_map c.1 c.2 ∧ s.visible_map c.1 c.2 ≤ 8) ∧
      0 < s.visible_map c.1 c.2 - (scan s c.1 c.2).marked_mines ∧ (scan s c.1 c.2).neighbors ≠ [] ∧
      x = ⟨c.1, c.2, s.visible_map c.1 c.2 - (scan s c.1 c.2).marked_mines,
        (scan s c.1 c.2).neighbors⟩ := by
  unfold numbered_cells at hx
  rw [List.mem_filterMap] at hx
  obtain ⟨c, hc, h⟩ := hx
  refine ⟨c, hc, ?_⟩
  unfold numberedCell at h
  by_cases hv : 1 ≤ s.visible_map c.1 c.2 ∧ s.visible_map c.1 c.2 ≤ 8
  · rw [if_pos hv] at h
    by_cases hr : s.visible_map c.1 c.2 - (scan s c.1 c.2).marked_mines > 0 ∧
        (scan s c.1 c.2).neighbors ≠ []
    · rw [if_pos hr] at h
      exact ⟨hv, hr.1, hr.2, (Option.some.inj h).symm⟩
    · rw [if_neg hr] at h
      exact absurd h (by simp)
  · rw [if_neg hv] at h
    exact absurd h (by simp)

theorem numbered_count {s : Game} {mine : Int → Int → Bool} (hne : NoExploded s)
    (hc : Consistent s mine) {x : Numbered} (hx : x ∈ numbered_cells s) :
    x.mines = ((x.neighbors.countP fun n => mine n.1 n.2 : Nat) : Int) ∧ x.neighbors.Nodup ∧
      ∀ n ∈ x.neighbors, covered s n := by
  obtain ⟨c, hmem, hv, _, _, rfl⟩ := mem_numbered_cells hx
  have hv' : 0 ≤ s.visible_map c.1 c.2 ∧ s.visible_map c.1 c.2 ≤ 8 := ⟨by omega, hv.2⟩
  refine ⟨?_, scan_neighbors_nodup s c.1 c.2, fun n hn => ⟨c, hmem, hv', hn⟩⟩
  have := revealed_count hne hc hmem hv'
  simp only
  omega

theorem pairSafe_sound {s : Game} {mine : Int → Int → Bool} (hne : NoExploded s)
    (hc : Consistent s mine) {x y : Numbered} (hx : x ∈ numbered_cells s)
    (hy : y ∈ numbered_cells s) {n : Int × Int} (h : pairSafe x y n) :
    mine n.1 n.2 = false ∧ covered s n := by
  obtain ⟨hsub, he, hn⟩ := h
  obtain ⟨cx, nx, _⟩ := numbered_count hne hc hx
  obtain ⟨cy, ny, vy⟩ := numbered_count hne hc hy
  have hcount := countP_diff nx ny (isSubset_iff.mp hsub) (fun n => mine n.1 n.2)
  have hz : (getDifference y.neighbors x.neighbors).countP (fun n => mine n.1 n.2) = 0 := by omega
  have := (List.countP_eq_zero.mp hz) n hn
  exact ⟨by simpa using this, vy n (mem_getDifference.mp hn).1⟩

theorem pairMine_sound {s : Game} {mine : Int → Int → Bool} (hne : NoExploded s)
    (hc : Consistent s mine) {x y : Numbered} (hx : x ∈ numbered_cells s)
    (hy : y ∈ numbered_cells s) {n : Int × Int} (h : pairMine x y n) :
    mine n.1 n.2 = true ∧ covered s n := by
  obtain ⟨hsub, _, he, hn⟩ := h
  obtain ⟨cx, nx, _⟩ := numbered_count hne hc hx
  obtain ⟨cy, ny, vy⟩ := numbered_count hne hc hy
  have hcount := countP_diff nx ny (isSubset_iff.mp hsub) (fun n => mine n.1 n.2)
  have hlen := length_diff nx ny (isSubset_iff.mp hsub)
  have hz : (getDifference y.neighbors x.neighbors).countP (fun n => mine n.1 n.2) =
      (getDifference y.neighbors x.neighbors).length := by omega
  exact ⟨(List.countP_eq_length.mp hz) n hn, vy n (mem_getDifference.mp hn).1⟩

theorem foldl_invariant {α β : Type} (P : α → Prop) (f : α → β → α) (M : List β)
    (hstep : ∀ y ∈ M, ∀ q, P q → P (f q y)) (q : α) (hq : P q) : P (M.foldl f q) := by
  induction M generalizing q with
  | nil => exact hq
  | cons y M ih =>
    rw [List.foldl_cons]
    exact ih (fun z hz => hstep z (List.mem_cons_of_mem _ hz)) _
      (hstep y (List.mem_cons_self _ _) q hq)

theorem foldl_establish {α β : Type} (P : α → Prop) (f : α → β → α) (M : List β)
    (hstep : ∀ y ∈ M, ∀ q, P q → P (f q y)) (b : β) (hb : b ∈ M) (hest : ∀ q, P (f q b))
    (q : α) : P (M.foldl f q) := by
  induction M generalizing q with
  | nil => simp at hb
  | cons y M ih =>
    rw [List.foldl_cons]
    rcases List.mem_cons.mp hb with rfl | hb'
    · exact foldl_invariant P f M (fun z hz => hstep z (List.mem_cons_of_mem _ hz)) _ (hest q)
    · exact ih (fun z hz => hstep z (List.mem_cons_of_mem _ hz)) hb' _

/-- A property of the probabilities kept by every pair step is kept by the
whole pair loop. -/
theorem analysePairs_invariant (P : (Int → Int → ℚ) → Prop) (L : List Numbered)
    (hstep : ∀ x ∈ L, ∀ y ∈ L, ∀ q, P q → P (analysePair x y q)) (p : Int → Int → ℚ)
    (hp : P p) : P (analysePairs L p) := by
  induction L generalizing p with
  | nil => exact hp
  | cons x L ih =>
    rw [analysePairs]
    apply ih (fun a ha b hb => hstep a (List.mem_cons_of_mem _ ha) b (List.mem_cons_of_mem _ hb))
    exact foldl_invariant P _ L
      (fun y hy q hq => hstep x (List.mem_cons_self _ _) y (List.mem_cons_of_mem _ hy) q hq) p hp

/-- A property established by the step of one pair `(A, B)`, `A` before `B`,
and kept by every pair step holds after the pair loop. -/
theorem analysePairs_establish (P : (Int → Int → ℚ) → Prop) (L : List Numbered)
    (hstep : ∀ x ∈ L, ∀ y ∈ L, ∀ q, P q → P (analysePair x y q)) (A B : Numbered)
    (hsub : [A, B].Sublist L) (hest : ∀ q, P (analysePair A B q)) (p : Int → Int → ℚ) :
    P (analysePairs L p) := by
  induction L generalizing p with
  | nil => simp at hsub
  | cons x L ih =>
    rw [analysePairs]
    have hstepL : ∀ a ∈ L, ∀ b ∈ L, ∀ q, P q → P (analysePair a b q) :=
      fun a ha b hb => hstep a (List.mem_cons_of_mem _ ha) b (List.mem_cons_of_mem _ hb)
    cases hsub with
    | cons _ h => exact ih hstepL h _
    | cons₂ _ h =>
      have hB : B ∈ L := by simpa using h
      apply analysePairs_invariant P L hstepL
      exact foldl_establish P _ L
        (fun y hy q hq => hstep A (List.mem_cons_self _ _) y (List.mem_cons_of_mem _ hy) q hq)
        B hB hest p

/-! ## The whole update on a consistent grid -/

theorem forcedSafe_sound {s : Game} {mine : Int → Int → Bool} (hne : NoExploded s)
    (hc : Consistent s mine) {n : Int × Int}
    (h : forcedSafeIn s (cells s.rows s.columns) n) : mine n.1 n.2 = false ∧ covered s n := by
  obtain ⟨c, hmem, ⟨hv, h0, _⟩, hn⟩ := h
  exact ⟨rule0_sound hne hc hmem hv h0 n hn, c, hmem, hv, hn⟩

theorem forcedMine_sound {s : Game} {mine : Int → Int → Bool} (hne : NoExploded s)
    (hc : Consistent s mine) {n : Int × Int}
    (h : forcedMineIn s (cells s.rows s.columns) n) : mine n.1 n.2 = true ∧ covered s n := by
  obtain ⟨c, hmem, ⟨hv, h1, _⟩, hn⟩ := h
  exact ⟨rule1_sound hne hc hmem hv h1 n hn, c, hmem, hv, hn⟩

theorem noConflict_of_consistent {s : Game} {mine : Int → Int → Bool} (hne : NoExploded s)
    (hc : Consistent s mine) (n : Int × Int) (h0 : forcedSafeIn s (cells s.rows s.columns) n)
    (h1 : forcedMineIn s (cells s.rows s.columns) n) : False := by
  have a := (forcedSafe_sound hne hc h0).1
  have b := (forcedMine_sound hne hc h1).1
  rw [a] at b
  exact absurd b (by simp)

theorem cellInv_congr {s : Game} {mine : Int → Int → Bool} {q q' : Int → Int → ℚ}
    {n : Int × Int} (h : q' n.1 n.2 = q n.1 n.2) (hq : cellInv s mine q n) :
    cellInv s mine q' n := by
  unfold cellInv at *
  rw [h]
  exact hq

/-- On a grid with a consistent placement the update returns within two passes,
every forced value is right for the placement, and what the loop forced is
still there after the pair analysis. -/
theorem update_spec {s : Game} {mine : Int → Int → Bool} (hne : NoExploded s)
    (hc : Consistent s mine) (fuel : Nat) (hf : 2 ≤ fuel) :
    ∃ q, updateMineProbabilities fuel s = some { s with mine_probability := q } ∧
      ∀ n, isHU s n = true → cellInv s mine q n ∧
        (forcedSafeIn s (cells s.rows s.columns) n → q n.1 n.2 = 0) ∧
        (forcedMineIn s (cells s.rows s.columns) n → q n.1 n.2 = 1) := by
  have hnc := noConflict_of_consistent hne hc
  have hprop := propagate_of_noConflict s hnc (resetProbabilities s) fuel hf
  refine ⟨analysePairs (numbered_cells s) (pass s (resetProbabilities s)).1, ?_, ?_⟩
  · unfold updateMineProbabilities
    rw [hprop]
    rfl
  · intro n hn
    apply analysePairs_invariant (fun q => cellInv s mine q n ∧
        (forcedSafeIn s (cells s.rows s.columns) n → q n.1 n.2 = 0) ∧
        (forcedMineIn s (cells s.rows s.columns) n → q n.1 n.2 = 1))
    · intro x hx y hy q ⟨hq, hq0, hq1⟩
      have hval := analysePair_apply x y q n.1 n.2
      by_cases a : pairSafe x y (n.1, n.2)
      · obtain ⟨m, cv⟩ := pairSafe_sound hne hc hx hy a
        rw [if_pos a] at hval
        refine ⟨Or.inr (Or.inl ⟨hval, m, cv⟩), fun _ => hval, fun h => ?_⟩
        have := (forcedMine_sound hne hc h).1
        rw [m] at this
        exact absurd this (by simp)
      · rw [if_neg a] at hval
        by_cases b : pairMine x y (n.1, n.2)
        · obtain ⟨m, cv⟩ := pairMine_sound hne hc hx hy b
          rw [if_pos b] at hval
          refine ⟨Or.inr (Or.inr ⟨hval, m, cv⟩), fun h => ?_, fun _ => hval⟩
          have := (forcedSafe_sound hne hc h).1
          rw [m] at this
          exact absurd this (by simp)
        · rw [if_neg b] at hval
          exact ⟨cellInv_congr hval hq, fun h => hval.trans (hq0 h), fun h => hval.trans (hq1 h)⟩
    · have hval : (pass s (resetProbabilities s)).1 n.1 n.2 =
          if forcedSafeIn s (cells s.rows s.columns) n then 0
          else if forcedMineIn s (cells s.rows s.columns) n then 1 else half := by
        unfold pass
        rw [foldl_scanCell_fst s _ _ hnc]
        simp only [resetProbabilities_apply, hn, if_true]
      by_cases a : forcedSafeIn s (cells s.rows s.columns) n
      · obtain ⟨m, cv⟩ := forcedSafe_sound hne hc a
        rw [if_pos a] at hval
        exact ⟨Or.inr (Or.inl ⟨hval, m, cv⟩), fun _ => hval, fun h => (hnc n a h).elim⟩
      · rw [if_neg a] at hval
        by_cases b : forcedMineIn s (cells s.rows s.columns) n
        · obtain ⟨m, cv⟩ := forcedMine_sound hne hc b
          rw [if_pos b] at hval
          exact ⟨Or.inr (Or.inr ⟨hval, m, cv⟩), fun h => (a h).elim, fun _ => hval⟩
        · rw [if_neg b] at hval
          exact ⟨Or.inl hval, fun h => (a h).elim, fun h => (b h).elim⟩

theorem half_ne_zero : half ≠ 0 := by decide

theorem half_ne_one : half ≠ 1 := by decide

/-- C1 (safety soundness): on a grid without exploded cell and for every mine
placement consistent with it, `updateMineProbabilities` returns (two passes of
the loop suffice), and afterwards no hidden-unmarked cell of probability `0.0`
is a mine of the placement. -/
theorem safety_soundness (s : Game) (mine : Int → Int → Bool) (hne : NoExploded s)
    (hc : Consistent s mine) (fuel : Nat) (hf : 2 ≤ fuel) :
    ∃ s', updateMineProbabilities fuel s = some s' ∧
      ∀ i j : Int, 0 ≤ i → i < s'.rows → 0 ≤ j → j < s'.columns →
        s'.visible_map i j = -1 → s'.is_marked i j = false →
        s'.mine_probability i j = 0 → mine i j = false := by
  obtain ⟨q, hq, hall⟩ := update_spec hne hc fuel hf
  refine ⟨_, hq, ?_⟩
  intro i j h1 h2 h3 h4 hv hm hp
  have hu : isHU s (i, j) = true := isHU_iff.mpr ⟨⟨h1, h2, h3, h4⟩, hm, hv⟩
  rcases (hall (i, j) hu).1 with h | ⟨_, h, _⟩ | ⟨h, _, _⟩
  · exact absurd (h.symm.trans hp) half_ne_zero
  · exact h
  · exact absurd (h.symm.trans hp) (by norm_num)

/-- Witness for C1: the grid `???/111` with its mine at `(0, 1)`. -/
theorem safety_soundness_witness :
    NoExploded (board 2 3 [[-1, -1, -1], [1, 1, 1]]) ∧
    Consistent (board 2 3 [[-1, -1, -1], [1, 1, 1]]) (minesAt [(0, 1)]) ∧
    ∃ s', updateMineProbabilities 2 (board 2 3 [[-1, -1, -1], [1, 1, 1]]) = some s' ∧
      ∀ i j : Int, 0 ≤ i → i < s'.rows → 0 ≤ j → j < s'.columns →
        s'.visible_map i j = -1 → s'.is_marked i j = false →
        s'.mine_probability i j = 0 → minesAt [(0, 1)] i j = false :=
  ⟨by decide, by decide,
    safety_soundness (board 2 3 [[-1, -1, -1], [1, 1, 1]]) (minesAt [(0, 1)])
      (by decide) (by decide) 2 (by decide)⟩

/-- C2 (mine soundness): on a grid without exploded cell and for every mine
placement consistent with it, `updateMineProbabilities` returns, and afterwards
every hidden-unmarked cell of probability `1.0` is a mine of the placement. -/
theorem mine_soundness (s : Game) (mine : Int → Int → Bool) (hne : NoExploded s)
    (hc : Consistent s mine) (fuel : Nat) (hf : 2 ≤ fuel) :
    ∃ s', updateMineProbabilities fuel s = some s' ∧
      ∀ i j : Int, 0 ≤ i → i < s'.rows → 0 ≤ j → j < s'.columns →
        s'.visible_map i j = -1 → s'.is_marked i j = false →
        s'.mine_probability i j = 1 → mine i j = true := by
  obtain ⟨q, hq, hall⟩ := update_spec hne hc fuel hf
  refine ⟨_, hq, ?_⟩
  intro i j h1 h2 h3 h4 hv hm hp
  have hu : isHU s (i, j) = true := isHU_iff.mpr ⟨⟨h1, h2, h3, h4⟩, hm, hv⟩
  rcases (hall (i, j) hu).1 with h | ⟨h, _, _⟩ | ⟨_, h, _⟩
  · exact absurd (h.symm.trans hp) half_ne_one
  · exact absurd (h.symm.trans hp) (by norm_num)
  · exact h

/-- Witness for C2: the grid `???/121` with its mines at `(0, 0)` and `(0, 2)`. -/
theorem mine_soundness_witness :
    NoExploded (board 2 3 [[-1, -1, -1], [1, 2, 1]]) ∧
    Consistent (board 2 3 [[-1, -1, -1], [1, 2, 1]]) (minesAt [(0, 0), (0, 2)]) ∧
    ∃ s', updateMineProbabilities 2 (board 2 3 [[-1, -1, -1], [1, 2, 1]]) = some s' ∧
      ∀ i j : Int, 0 ≤ i → i < s'.rows → 0 ≤ j → j < s'.columns →
        s'.visible_map i j = -1 → s'.is_marked i j = false →
        s'.mine_probability i j = 1 → minesAt [(0, 0), (0, 2)] i j = true :=
  ⟨by decide, by decide,
    mine_soundness (board 2 3 [[-1, -1, -1], [1, 2, 1]]) (minesAt [(0, 0), (0, 2)])
      (by decide) (by decide) 2 (by decide)⟩

/-- C3 (fixpoint termination), evaluated at the snapshot `X1?0` (one row, four
columns): the revealed `1` forces `(0, 2)` to `1.0`, the revealed `0` forces it
to `0.0`, every pass changes it, and the loop never stops: no amount of fuel
makes `updateMineProbabilities` return. -/
theorem update_diverges_on_conflict (fuel : Nat) :
    updateMineProbabilities fuel (board 1 4 [[9, 1, -1, 0]]) = none := by
  unfold updateMineProbabilities
  rw [propagate_of_conflict (board 1 4 [[9, 1, -1, 0]]) (0, 2) (by decide) (by decide)]

/-! ## The searches of `Decide` -/

theorem rowMajorLt_irrefl (a : Int × Int) : ¬ rowMajorLt a a := by
  unfold rowMajorLt; omega

theorem rowMajorLt_asymm {a b : Int × Int} (h : rowMajorLt a b) : ¬ rowMajorLt b a := by
  unfold rowMajorLt at *; omega

theorem find_cells_first {R C : Nat} {f : Int × Int → Bool} {c0 : Int × Int}
    (h : (cells R C).find? f = some c0) :
    c0 ∈ cells R C ∧ f c0 = true ∧ ∀ c ∈ cells R C, f c = true → c0 = c ∨ rowMajorLt c0 c := by
  refine ⟨List.mem_of_find?_eq_some h, List.find?_some h, ?_⟩
  obtain ⟨_, as, bs, hl, has⟩ := List.find?_eq_some.mp h
  have hs := cells_sorted R C
  rw [hl] at hs ⊢
  intro c hc hf
  rcases List.mem_append.mp hc with hc | hc
  · have := has c hc
    rw [hf] at this
    exact absurd this (by simp)
  · rcases List.mem_cons.mp hc with rfl | hc
    · exact Or.inl rfl
    · right
      have := (List.pairwise_append.mp hs).2.1
      exact (List.pairwise_cons.mp this).1 c hc

theorem hiddenNeighbours_eq (s : Game) (c : Int × Int) :
    hiddenNeighbours s c = (scan s c.1 c.2).neighbors := (scan_neighbors s c.1 c.2).symm

theorem markedNeighbours_eq (s : Game) (c : Int × Int) :
    ((markedNeighbours s c : Nat) : Int) = (scan s c.1 c.2).marked_mines :=
  (scan_marked s c.1 c.2).symm

theorem unknown_pos_iff (s : Game) (c : Int × Int) :
    (scan s c.1 c.2).unknown_cells > 0 ↔ (scan s c.1 c.2).neighbors ≠ [] := by
  rw [scan_unknown]
  cases (scan s c.1 c.2).neighbors <;> simp

theorem autoExploreAt_iff (s : Game) (c : Int × Int) :
    autoExploreAt s c = true ↔ autoClearCandidate 1 s c := by
  unfold autoExploreAt autoClearCandidate
  rw [hiddenNeighbours_eq, markedNeighbours_eq, ← unknown_pos_iff]
  simp only [Bool.and_eq_true, decide_eq_true_eq]
  constructor
  · rintro ⟨⟨a, b⟩, d, e⟩
    exact ⟨a, b, d.symm, e⟩
  · rintro ⟨a, b, d, e⟩
    exact ⟨⟨a, b⟩, d.symm, e⟩

theorem obviousMineAt_iff (s : Game) (c : Int × Int) :
    obviousMineAt s c = true ↔ mineRule s c := by
  unfold obviousMineAt mineRule
  simp only [Bool.and_eq_true, decide_eq_true_eq]

theorem mineRule_iff (s : Game) (c : Int × Int) : mineRule s c ↔ markCandidate s c := by
  unfold mineRule markCandidate
  rw [hiddenNeighbours_eq, markedNeighbours_eq, scan_unknown]
  constructor
  · rintro ⟨⟨a, b⟩, d, e⟩
    exact ⟨a, b, d, by omega⟩
  · rintro ⟨a, b, d, e⟩
    exact ⟨⟨a, b⟩, d, by omega⟩

theorem scan_neighbors_inBounds {s : Game} {c n : Int × Int}
    (hn : n ∈ (scan s c.1 c.2).neighbors) :
    inBounds s n ∧ s.is_marked n.1 n.2 = false ∧ s.visible_map n.1 n.2 = -1 :=
  isHU_iff.mp (mem_scan_neighbors.mp hn).2

theorem headD_mem {l : List (Int × Int)} (h : l ≠ []) (d : Int × Int) : l.headD d ∈ l := by
  cases l with
  | nil => exact absurd rfl h
  | cons a l => simp

theorem findBestAutoExplore_none {s : Game} (h : (findBestAutoExplore s).1 = -1) :
    ∀ c ∈ cells s.rows s.columns, ¬ autoClearCandidate 1 s c := by
  unfold findBestAutoExplore at h
  cases hf : (cells s.rows s.columns).find? (autoExploreAt s) with
  | none =>
    intro c hc hcand
    have := List.find?_eq_none.mp hf c hc
    exact this ((autoExploreAt_iff s c).mpr hcand)
  | some c0 =>
    rw [hf] at h
    have := (mem_cells.mp (find_cells_first hf).1).1
    simp only at h
    omega

theorem findBestAutoExplore_some {s : Game} {c : Int × Int} (hc : c ∈ cells s.rows s.columns)
    (hcand : autoClearCandidate 1 s c) :
    ∃ c0, findBestAutoExplore s = c0 ∧ c0 ∈ cells s.rows s.columns ∧ autoClearCandidate 1 s c0 ∧
      ∀ c' ∈ cells s.rows s.columns, autoClearCandidate 1 s c' → c0 = c' ∨ rowMajorLt c0 c' := by
  unfold findBestAutoExplore
  cases hf : (cells s.rows s.columns).find? (autoExploreAt s) with
  | none =>
    exact absurd ((autoExploreAt_iff s c).mpr hcand) (List.find?_eq_none.mp hf c hc)
  | some c0 =>
    obtain ⟨h1, h2, h3⟩ := find_cells_first hf
    exact ⟨c0, rfl, h1, (autoExploreAt_iff s c0).mp h2,
      fun c' hc' hcand' => h3 c' hc' ((autoExploreAt_iff s c').mpr hcand')⟩

theorem findObviousMine_none {s : Game} (h : (findObviousMine s).1 = -1) :
    ∀ c ∈ cells s.rows s.columns, ¬ mineRule s c := by
  unfold findObviousMine at h
  cases hf : (cells s.rows s.columns).find? (obviousMineAt s) with
  | none =>
    intro c hc hcand
    exact List.find?_eq_none.mp hf c hc ((obviousMineAt_iff s c).mpr hcand)
  | some c0 =>
    rw [hf] at h
    have hr := (obviousMineAt_iff s c0).mp (find_cells_first hf).2.1
    have hne := (unknown_pos_iff s c0).mp hr.2.2
    have hb := (scan_neighbors_inBounds (headD_mem hne (-1, -1))).1
    unfold inBounds at hb
    simp only at h
    omega

theorem findObviousMine_some {s : Game} {c : Int × Int} (hc : c ∈ cells s.rows s.columns)
    (hcand : mineRule s c) :
    ∃ c0 n rest, findObviousMine s = n ∧ (scan s c0.1 c0.2).neighbors = n :: rest ∧
      c0 ∈ cells s.rows s.columns ∧ mineRule s c0 ∧
      ∀ c' ∈ cells s.rows s.columns, mineRule s c' → c0 = c' ∨ rowMajorLt c0 c' := by
  unfold findObviousMine
  cases hf : (cells s.rows s.columns).find? (obviousMineAt s) with
  | none =>
    exact absurd ((obviousMineAt_iff s c).mpr hcand) (List.find?_eq_none.mp hf c hc)
  | some c0 =>
    obtain ⟨h1, h2, h3⟩ := find_cells_first hf
    have hr := (obviousMineAt_iff s c0).mp h2
    have hne := (unknown_pos_iff s c0).mp hr.2.2
    obtain ⟨n, rest, hl⟩ := List.exists_cons_of_ne_nil hne
    refine ⟨c0, n, rest, ?_, hl, h1, hr,
      fun c' hc' hcand' => h3 c' hc' ((obviousMineAt_iff s c').mpr hcand')⟩
    simp only [hl, List.headD_cons]

theorem hasHiddenUnmarked_of_isHU {s : Game} {n : Int × Int} (h : isHU s n = true) :
    hasHiddenUnmarked s := by
  obtain ⟨⟨a, b, c, d⟩, e, f⟩ := isHU_iff.mp h
  exact ⟨n.1, n.2, a, b, c, d, f, e⟩

theorem findBestAutoExplore_cases (s : Game) :
    ((findBestAutoExplore s).1 = -1 ∧ ∀ c ∈ cells s.rows s.columns, ¬ autoClearCandidate 1 s c) ∨
    ((findBestAutoExplore s).1 ≠ -1 ∧ findBestAutoExplore s ∈ cells s.rows s.columns ∧
      autoClearCandidate 1 s (findBestAutoExplore s) ∧
      ∀ c' ∈ cells s.rows s.columns, autoClearCandidate 1 s c' →
        findBestAutoExplore s = c' ∨ rowMajorLt (findBestAutoExplore s) c') := by
  by_cases h : (findBestAutoExplore s).1 = -1
  · exact Or.inl ⟨h, findBestAutoExplore_none h⟩
  · right
    by_cases hex : ∃ c ∈ cells s.rows s.columns, autoClearCandidate 1 s c
    · obtain ⟨c, hc, hcand⟩ := hex
      obtain ⟨c0, e, h1, h2, h3⟩ := findBestAutoExplore_some hc hcand
      rw [e]
      exact ⟨by rw [← e]; exact h, h1, h2, h3⟩
    · exfalso
      apply h
      unfold findBestAutoExplore
      have : (cells s.rows s.columns).find? (autoExploreAt s) = none := by
        rw [List.find?_eq_none]
        intro c hc hf
        exact hex ⟨c, hc, (autoExploreAt_iff s c).mp hf⟩
      rw [this]

theorem findObviousMine_cases (s : Game) :
    ((findObviousMine s).1 = -1 ∧ ∀ c ∈ cells s.rows s.columns, ¬ mineRule s c) ∨
    ((findObviousMine s).1 ≠ -1 ∧ ∃ c0 rest, c0 ∈ cells s.rows s.columns ∧ mineRule s c0 ∧
      (scan s c0.1 c0.2).neighbors = findObviousMine s :: rest ∧
      ∀ c' ∈ cells s.rows s.columns, mineRule s c' → c0 = c' ∨ rowMajorLt c0 c') := by
  by_cases h : (findObviousMine s).1 = -1
  · exact Or.inl ⟨h, findObviousMine_none h⟩
  · right
    by_cases hex : ∃ c ∈ cells s.rows s.columns, mineRule s c
    · obtain ⟨c, hc, hcand⟩ := hex
      obtain ⟨c0, n, rest, e, h1, h2, h3, h4⟩ := findObviousMine_some hc hcand
      rw [e]
      exact ⟨by rw [← e]; exact h, c0, rest, h2, h3, h1, h4⟩
    · exfalso
      apply h
      unfold findObviousMine
      have : (cells s.rows s.columns).find? (obviousMineAt s) = none := by
        rw [List.find?_eq_none]
        intro c hc hf
        exact hex ⟨c, hc, (obviousMineAt_iff s c).mp hf⟩
      rw [this]

theorem obviousSafeAt_iff (s : Game) (c : Int × Int) :
    obviousSafeAt s c = true ↔
      (0 ≤ s.visible_map c.1 c.2 ∧ s.visible_map c.1 c.2 ≤ 8) ∧
        s.visible_map c.1 c.2 - (scan s c.1 c.2).marked_mines = 0 ∧
        (scan s c.1 c.2).unknown_cells > 0 := by
  unfold obviousSafeAt
  simp only [Bool.and_eq_true, decide_eq_true_eq]

theorem findObviousSafe_cases (s : Game) :
    ((findObviousSafe s).1 = -1 ∧ ∀ c ∈ cells s.rows s.columns, obviousSafeAt s c = false) ∨
    ((findObviousSafe s).1 ≠ -1 ∧ ∃ c0 rest, c0 ∈ cells s.rows s.columns ∧
      obviousSafeAt s c0 = true ∧ (scan s c0.1 c0.2).neighbors = findObviousSafe s :: rest) := by
  unfold findObviousSafe
  cases hf : (cells s.rows s.columns).find? (obviousSafeAt s) with
  | none =>
    left
    refine ⟨rfl, fun c hc => ?_⟩
    have := List.find?_eq_none.mp hf c hc
    simpa using this
  | some c0 =>
    right
    obtain ⟨h1, h2, _⟩ := find_cells_first hf
    have hr := (obviousSafeAt_iff s c0).mp h2
    have hne := (unknown_pos_iff s c0).mp hr.2.2
    obtain ⟨n, rest, hl⟩ := List.exists_cons_of_ne_nil hne
    have hb : inBounds s n := (scan_neighbors_inBounds (c := c0) (by rw [hl]; simp)).1
    simp only [hl, List.headD_cons]
    refine ⟨?_, c0, rest, h1, h2, hl⟩
    unfold inBounds at hb
    omega

theorem safest_fold (s : Game) (L : List (Int × Int)) (hL : ∀ c ∈ L, 0 ≤ c.1) :
    ((L.foldl (safestStep s) (1, (-1, -1))) = (1, (-1, -1)) ∧
      ∀ c ∈ L, s.visible_map c.1 c.2 = -1 → s.is_marked c.1 c.2 = false →
        ¬ s.mine_probability c.1 c.2 < 1) ∨
    ((L.foldl (safestStep s) (1, (-1, -1))).2 ∈ L ∧
      s.visible_map (L.foldl (safestStep s) (1, (-1, -1))).2.1
        (L.foldl (safestStep s) (1, (-1, -1))).2.2 = -1 ∧
      s.is_marked (L.foldl (safestStep s) (1, (-1, -1))).2.1
        (L.foldl (safestStep s) (1, (-1, -1))).2.2 = false ∧
      s.mine_probability (L.foldl (safestStep s) (1, (-1, -1))).2.1
        (L.foldl (safestStep s) (1, (-1, -1))).2.2 = (L.foldl (safestStep s) (1, (-1, -1))).1 ∧
      (L.foldl (safestStep s) (1, (-1, -1))).1 < 1 ∧
      ∀ c ∈ L, s.visible_map c.1 c.2 = -1 → s.is_marked c.1 c.2 = false →
        (L.foldl (safestStep s) (1, (-1, -1))).1 ≤ s.mine_probability c.1 c.2) := by
  induction L using List.reverseRecOn with
  | nil => left; simp
  | append_singleton L x ih =>
    have hL' : ∀ c ∈ L, 0 ≤ c.1 := fun c hc => hL c (List.mem_append_left _ hc)
    rw [List.foldl_append, List.foldl_cons, List.foldl_nil]
    generalize L.foldl (safestStep s) (1, (-1, -1)) = acc at ih ⊢
    unfold safestStep
    by_cases hx : s.visible_map x.1 x.2 = -1 ∧ ¬ s.is_marked x.1 x.2
    · have hx2 : s.is_marked x.1 x.2 = false := by simpa using hx.2
      rw [if_pos hx]
      by_cases hlt : s.mine_probability x.1 x.2 < acc.1
      · rw [if_pos hlt]
        right
        rcases ih hL' with ⟨e, hall⟩ | ⟨_, _, _, _, hlt1, hall⟩
        · rw [e] at hlt
          refine ⟨by simp, hx.1, hx2, rfl, hlt, ?_⟩
          intro c hc hv hm
          rcases List.mem_append.mp hc with hc | hc
          · have := hall c hc hv hm
            exact le_of_lt (lt_of_lt_of_le hlt (not_lt.mp this))
          · rw [List.mem_singleton.mp hc]
        · refine ⟨by simp, hx.1, hx2, rfl, lt_trans hlt hlt1, ?_⟩
          intro c hc hv hm
          rcases List.mem_append.mp hc with hc | hc
          · exact le_trans (le_of_lt hlt) (hall c hc hv hm)
          · rw [List.mem_singleton.mp hc]
      · rw [if_neg hlt]
        rcases ih hL' with ⟨e, hall⟩ | ⟨hm, h1, h2, h3, h4, hall⟩
        · left
          refine ⟨e, ?_⟩
          intro c hc hv hm
          rcases List.mem_append.mp hc with hc | hc
          · exact hall c hc hv hm
          · rw [List.mem_singleton.mp hc]
            rw [e] at hlt
            exact hlt
        · right
          refine ⟨List.mem_append_left _ hm, h1, h2, h3, h4, ?_⟩
          intro c hc hv hm
          rcases List.mem_append.mp hc with hc | hc
          · exact hall c hc hv hm
          · rw [List.mem_singleton.mp hc]
            exact not_lt.mp hlt
    · rw [if_neg hx]
      rcases ih hL' with ⟨e, hall⟩ | ⟨hm, h1, h2, h3, h4, hall⟩
      · left
        refine ⟨e, ?_⟩
        intro c hc hv hm
        rcases List.mem_append.mp hc with hc | hc
        · exact hall c hc hv hm
        · rw [List.mem_singleton.mp hc] at hv hm
          exact absurd ⟨hv, by simp [hm]⟩ hx
      · right
        refine ⟨List.mem_append_left _ hm, h1, h2, h3, h4, ?_⟩
        intro c hc hv hm
        rcases List.mem_append.mp hc with hc | hc
        · exact hall c hc hv hm
        · rw [List.mem_singleton.mp hc] at hv hm
          exact absurd ⟨hv, by simp [hm]⟩ hx

theorem findSafestCell_cases (s : Game) :
    (findSafestCell s = (-1, -1) ∧
      ∀ c ∈ cells s.rows s.columns, s.visible_map c.1 c.2 = -1 → s.is_marked c.1 c.2 = false →
        ¬ s.mine_probability c.1 c.2 < 1) ∨
    ((findSafestCell s).1 ≠ -1 ∧ findSafestCell s ∈ cells s.rows s.columns ∧
      s.visible_map (findSafestCell s).1 (findSafestCell s).2 = -1 ∧
      s.is_marked (findSafestCell s).1 (findSafestCell s).2 = false ∧
      s.mine_probability (findSafestCell s).1 (findSafestCell s).2 < 1 ∧
      ∀ c ∈ cells s.rows s.columns, s.visible_map c.1 c.2 = -1 → s.is_marked c.1 c.2 = false →
        s.mine_probability (findSafestCell s).1 (findSafestCell s).2 ≤
          s.mine_probability c.1 c.2) := by
  unfold findSafestCell
  rcases safest_fold s (cells s.rows s.columns) (fun c hc => (mem_cells.mp hc).1) with
    ⟨e, hall⟩ | ⟨hm, h1, h2, h3, h4, hall⟩
  · left
    rw [e]
    exact ⟨rfl, hall⟩
  · right
    have := (mem_cells.mp hm).1
    refine ⟨by omega, hm, h1, h2, by rw [h3]; exact h4, ?_⟩
    rw [h3]
    exact hall

theorem mem_unknownCells {s : Game} {c : Int × Int} :
    c ∈ unknownCells s ↔
      c ∈ cells s.rows s.columns ∧ s.visible_map c.1 c.2 = -1 ∧ s.is_marked c.1 c.2 = false := by
  unfold unknownCells
  simp [List.mem_filter]

theorem unknownCells_ne_nil_iff (s : Game) : unknownCells s ≠ [] ↔ hasHiddenUnmarked s := by
  constructor
  · intro h
    obtain ⟨c, rest, hl⟩ := List.exists_cons_of_ne_nil h
    have hc : c ∈ unknownCells s := by rw [hl]; simp
    obtain ⟨h1, h2, h3⟩ := mem_unknownCells.mp hc
    obtain ⟨a, b, d, e⟩ := mem_cells.mp h1
    exact ⟨c.1, c.2, a, b, d, e, h2, h3⟩
  · rintro ⟨i, j, a, b, d, e, h2, h3⟩ h
    have : (i, j) ∈ unknownCells s := mem_unknownCells.mpr ⟨mem_cells.mpr ⟨a, b, d, e⟩, h2, h3⟩
    rw [h] at this
    simp at this

theorem Decide_eq (s : Game) (rnd : Nat) :
    Decide s rnd =
      if (findBestAutoExplore s).1 ≠ -1 then
        ([⟨(findBestAutoExplore s).1, (findBestAutoExplore s).2, 2⟩], s)
      else if (findObviousMine s).1 ≠ -1 then
        ([⟨(findObviousMine s).1, (findObviousMine s).2, 1⟩],
          { s with total_mines_marked := s.total_mines_marked + 1 })
      else if (findObviousSafe s).1 ≠ -1 then
        ([⟨(findObviousSafe s).1, (findObviousSafe s).2, 0⟩], s)
      else if (findSafestCell s).1 ≠ -1 then
        ([⟨(findSafestCell s).1, (findSafestCell s).2, 0⟩], s)
      else if unknownCells s ≠ [] then
        ([⟨((unknownCells s).getD (rnd % (unknownCells s).length) (-1, -1)).1,
          ((unknownCells s).getD (rnd % (unknownCells s).length) (-1, -1)).2, 0⟩], s)
      else ([], s) := rfl

/-! ## The decision cascade -/

/-- C4 (exactly-one-action, as amended): `Decide` never calls `Execute` more
than once, and it calls it exactly once precisely when the grid has a
hidden-unmarked cell; on a grid without one it makes no call, whatever the
random value. -/
theorem decide_action_count (s : Game) (rnd : Nat) :
    (Decide s rnd).1.length ≤ 1 ∧ ((Decide s rnd).1.length = 1 ↔ hasHiddenUnmarked s) := by
  rw [Decide_eq]
  by_cases h1 : (findBestAutoExplore s).1 ≠ -1
  · rw [if_pos h1]
    rcases findBestAutoExplore_cases s with ⟨e, _⟩ | ⟨_, _, hcand, _⟩
    · exact absurd e h1
    · obtain ⟨n, rest, hl⟩ := List.exists_cons_of_ne_nil hcand.2.2.2
      have hn : n ∈ hiddenNeighbours s (findBestAutoExplore s) := by rw [hl]; simp
      have := hasHiddenUnmarked_of_isHU (List.mem_filter.mp hn).2
      simp [this]
  · rw [if_neg h1]
    by_cases h2 : (findObviousMine s).1 ≠ -1
    · rw [if_pos h2]
      rcases findObviousMine_cases s with ⟨e, _⟩ | ⟨_, c0, rest, _, _, hl, _⟩
      · exact absurd e h2
      · have hn : findObviousMine s ∈ (scan s c0.1 c0.2).neighbors := by rw [hl]; simp
        have := hasHiddenUnmarked_of_isHU (mem_scan_neighbors.mp hn).2
        simp [this]
    · rw [if_neg h2]
      by_cases h3 : (findObviousSafe s).1 ≠ -1
      · rw [if_pos h3]
        rcases findObviousSafe_cases s with ⟨e, _⟩ | ⟨_, c0, rest, _, _, hl⟩
        · exact absurd e h3
        · have hn : findObviousSafe s ∈ (scan s c0.1 c0.2).neighbors := by rw [hl]; simp
          have := hasHiddenUnmarked_of_isHU (mem_scan_neighbors.mp hn).2
          simp [this]
      · rw [if_neg h3]
        by_cases h4 : (findSafestCell s).1 ≠ -1
        · rw [if_pos h4]
          rcases findSafestCell_cases s with ⟨e, _⟩ | ⟨_, hm, hv, hk, _⟩
          · rw [e] at h4
            exact absurd rfl h4
          · obtain ⟨a, b, c, d⟩ := mem_cells.mp hm
            have : hasHiddenUnmarked s := ⟨_, _, a, b, c, d, hv, hk⟩
            simp [this]
        · rw [if_neg h4]
          by_cases h5 : unknownCells s ≠ []
          · rw [if_pos h5]
            have := (unknownCells_ne_nil_iff s).mp h5
            simp [this]
          · rw [if_neg h5]
            have : ¬ hasHiddenUnmarked s := fun h => h5 ((unknownCells_ne_nil_iff s).mpr h)
            simp [this]

/-- C4, counterexample to the claim as stated: on the 1x1 grid `0` the update
returns and `Decide` then makes no call of `Execute`. -/
theorem decide_no_action_counterexample :
    (updateMineProbabilities 1 (board 1 1 [[0]])).map (fun s' => (Decide s' 0).1) = some [] := by
  decide

/-- C6 (auto-clear rule and its priority, as amended to counts `1..8`): when
some revealed cell with count in `1..8` has its count equal to the number of its
marked neighbours and a hidden-unmarked neighbour, `Decide` emits exactly
`Execute(r, c, 2)` on the first such cell in row-major order. -/
theorem auto_clear_priority (s : Game) (rnd : Nat)
    (h : ∃ c ∈ cells s.rows s.columns, autoClearCandidate 1 s c) :
    ∃ c ∈ cells s.rows s.columns, autoClearCandidate 1 s c ∧
      (∀ c' ∈ cells s.rows s.columns, autoClearCandidate 1 s c' → c = c' ∨ rowMajorLt c c') ∧
      (Decide s rnd).1 = [⟨c.1, c.2, 2⟩] := by
  obtain ⟨c, hc, hcand⟩ := h
  rcases findBestAutoExplore_cases s with ⟨_, hnone⟩ | ⟨hne, hm, hcand0, hfirst⟩
  · exact absurd hcand (hnone c hc)
  · refine ⟨findBestAutoExplore s, hm, hcand0, hfirst, ?_⟩
    rw [Decide_eq, if_pos hne]

/-- Witness for C6: the grid `@1?`, where the revealed `1` has its mine marked. -/
theorem auto_clear_priority_witness :
    ∃ c ∈ cells 1 3, autoClearCandidate 1 (markedBoard 1 3 [[-1, 1, -1]] [(0, 0)]) c ∧
      (∀ c' ∈ cells 1 3, autoClearCandidate 1 (markedBoard 1 3 [[-1, 1, -1]] [(0, 0)]) c' →
        c = c' ∨ rowMajorLt c c') ∧
      (Decide (markedBoard 1 3 [[-1, 1, -1]] [(0, 0)]) 0).1 = [⟨c.1, c.2, 2⟩] :=
  auto_clear_priority (markedBoard 1 3 [[-1, 1, -1]] [(0, 0)]) 0 ⟨(0, 1), by decide, by decide⟩

/-- C6, counterexample to the claim as stated (counts `0..8`): on the grid `0?`
the revealed `0` has as many marked neighbours as its count and a hidden
neighbour, yet `Decide` emits the visit `Execute(0, 1, 0)`, not
`Execute(0, 0, 2)`. -/
theorem auto_clear_zero_counterexample :
    (0, 0) ∈ cells 1 2 ∧ autoClearCandidate 0 (board 1 2 [[0, -1]]) (0, 0) ∧
      (Decide (board 1 2 [[0, -1]]) 0).1 = [⟨0, 1, 0⟩] := by
  decide

/-- C8 (mark before any probability-based visit): when `findBestAutoExplore`
returns `{-1, -1}` and some revealed cell has `count − marked == |U| > 0`,
`Decide` emits exactly `Execute(r, c, 1)` where `(r, c)` is the first
hidden-unmarked neighbour of the first such cell in row-major order; it emits
no visit. -/
theorem mark_before_visit (s : Game) (rnd : Nat) (hauto : findBestAutoExplore s = (-1, -1))
    (h : ∃ c ∈ cells s.rows s.columns, markCandidate s c) :
    ∃ c ∈ cells s.rows s.columns, markCandidate s c ∧
      (∀ c' ∈ cells s.rows s.columns, markCandidate s c' → c = c' ∨ rowMajorLt c c') ∧
      ∃ n rest, hiddenNeighbours s c = n :: rest ∧ (Decide s rnd).1 = [⟨n.1, n.2, 1⟩] ∧
        ∀ a ∈ (Decide s rnd).1, a.type ≠ 0 := by
  obtain ⟨c, hc, hcand⟩ := h
  have h1 : ¬ (findBestAutoExplore s).1 ≠ -1 := by rw [hauto]; simp
  rcases findObviousMine_cases s with ⟨_, hnone⟩ | ⟨hne, c0, rest, hm, hr, hl, hfirst⟩
  · exact absurd ((mineRule_iff s c).mpr hcand) (hnone c hc)
  · refine ⟨c0, hm, (mineRule_iff s c0).mp hr,
      fun c' hc' hcand' => hfirst c' hc' ((mineRule_iff s c').mpr hcand'),
      findObviousMine s, rest, by rw [hiddenNeighbours_eq]; exact hl, ?_⟩
    rw [Decide_eq, if_neg h1, if_pos hne]
    simp

/-- Witness for C8: the grid `1?`, whose only hidden cell must be the mine. -/
theorem mark_before_visit_witness :
    ∃ c ∈ cells 1 2, markCandidate (board 1 2 [[1, -1]]) c ∧
      (∀ c' ∈ cells 1 2, markCandidate (board 1 2 [[1, -1]]) c' → c = c' ∨ rowMajorLt c c') ∧
      ∃ n rest, hiddenNeighbours (board 1 2 [[1, -1]]) c = n :: rest ∧
        (Decide (board 1 2 [[1, -1]]) 0).1 = [⟨n.1, n.2, 1⟩] ∧
        ∀ a ∈ (Decide (board 1 2 [[1, -1]]) 0).1, a.type ≠ 0 :=
  mark_before_visit (board 1 2 [[1, -1]]) 0 (by decide) ⟨(0, 0), by decide, by decide⟩

/-! ## The cascade on the result of the update -/

theorem eq_some_getD {α : Type} (o : Option α) (d : α) (h : o.isSome = true) :
    o = some (o.getD d) := by
  cases o with
  | none => exact absurd h (by simp)
  | some a => rfl

theorem pass_pass (s : Game)
    (hnc : ∀ n, forcedSafeIn s (cells s.rows s.columns) n →
      forcedMineIn s (cells s.rows s.columns) n → False) (p : Int → Int → ℚ) :
    pass s (pass s p).1 = ((pass s p).1, false) := by
  unfold pass
  apply foldl_scanCell_id
  · intro n hn
    show ((cells s.rows s.columns).foldl (scanCell s) (p, false)).1 n.1 n.2 = 0
    rw [foldl_scanCell_fst s _ _ hnc, if_pos hn]
  · intro n hn
    have hn0 : ¬ forcedSafeIn s (cells s.rows s.columns) n := fun h => hnc n h hn
    show ((cells s.rows s.columns).foldl (scanCell s) (p, false)).1 n.1 n.2 = 1
    rw [foldl_scanCell_fst s _ _ hnc, if_neg hn0, if_pos hn]

theorem propagate_some (s : Game)
    (hnc : ∀ n, forcedSafeIn s (cells s.rows s.columns) n →
      forcedMineIn s (cells s.rows s.columns) n → False)
    {fuel : Nat} {p r : Int → Int → ℚ} (h : propagate s fuel p = some r) :
    r = (pass s p).1 := by
  cases fuel with
  | zero => simp [propagate] at h
  | succ k =>
    rw [propagate] at h
    by_cases hch : (pass s p).2 = true
    · simp only [hch, if_true] at h
      cases k with
      | zero => simp [propagate] at h
      | succ k' =>
        rw [propagate, pass_pass s hnc] at h
        simp only [Bool.false_eq_true, if_false, Option.some.injEq] at h
        exact h.symm
    · have hf : (pass s p).2 = false := by simpa using hch
      rw [hf] at h
      simp only [Bool.false_eq_true, if_false, Option.some.injEq] at h
      exact h.symm

/-- Whatever the fuel: if the update returns on a grid with a consistent
placement, it returns the grid with probabilities as described by `update_spec`. -/
theorem update_of_some {s : Game} {mine : Int → Int → Bool} (hne : NoExploded s)
    (hc : Consistent s mine) {fuel : Nat} {s' : Game}
    (hupd : updateMineProbabilities fuel s = some s') :
    ∃ q, s' = { s with mine_probability := q } ∧
      ∀ n, isHU s n = true → cellInv s mine q n ∧
        (forcedSafeIn s (cells s.rows s.columns) n → q n.1 n.2 = 0) ∧
        (forcedMineIn s (cells s.rows s.columns) n → q n.1 n.2 = 1) := by
  have hnc := noConflict_of_consistent hne hc
  obtain ⟨q, hq, hall⟩ := update_spec hne hc 2 (le_refl 2)
  refine ⟨q, ?_, hall⟩
  have h2 : updateMineProbabilities 2 s = some s' := by
    unfold updateMineProbabilities at hupd ⊢
    cases hp : propagate s fuel (resetProbabilities s) with
    | none => rw [hp] at hupd; exact absurd hupd (by simp)
    | some r =>
      rw [hp] at hupd
      rw [propagate_of_noConflict s hnc _ 2 (le_refl 2), ← propagate_some s hnc hp]
      exact hupd
  rw [hq] at h2
  exact (Option.some.inj h2).symm

/-- On the result of the update of a grid with a consistent placement, a grid
with a hidden-unmarked cell always gives `findObviousMine` or `findSafestCell`
a cell to return. -/
theorem fallback_unreachable {s : Game} {mine : Int → Int → Bool} (hne : NoExploded s)
    (hc : Consistent s mine) {fuel : Nat} {s' : Game}
    (hupd : updateMineProbabilities fuel s = some s') (hU : hasHiddenUnmarked s') :
    (findObviousMine s').1 ≠ -1 ∨ (findSafestCell s').1 ≠ -1 := by
  obtain ⟨q, rfl, hall⟩ := update_of_some hne hc hupd
  by_contra hcon
  push_neg at hcon
  obtain ⟨hm, hs⟩ := hcon
  have hnone := findObviousMine_none hm
  rcases findSafestCell_cases { s with mine_probability := q } with ⟨_, hge⟩ | ⟨h, _⟩
  swap
  · exact h hs
  have hone : ∀ n, isHU s n = true → q n.1 n.2 = 1 ∧ mine n.1 n.2 = true ∧ covered s n := by
    intro n hn
    obtain ⟨hb, hk, hv⟩ := isHU_iff.mp hn
    have hnlt := hge n (inBounds_iff_mem.mp hb) hv hk
    rcases (hall n hn).1 with h | ⟨h, _, _⟩ | ⟨h, m, cv⟩
    · exact absurd (show q n.1 n.2 < 1 by rw [h]; decide) hnlt
    · exact absurd (show q n.1 n.2 < 1 by rw [h]; norm_num) hnlt
    · exact ⟨h, m, cv⟩
  obtain ⟨i, j, a, b, c, d, hv, hk⟩ := hU
  have hn : isHU s (i, j) = true := isHU_iff.mpr ⟨⟨a, b, c, d⟩, hk, hv⟩
  obtain ⟨x, hx, hvx, hnx⟩ := (hone (i, j) hn).2.2
  have hcount := revealed_count hne hc hx hvx
  have hallmine : (scan s x.1 x.2).neighbors.countP (fun n => mine n.1 n.2) =
      (scan s x.1 x.2).neighbors.length := by
    rw [List.countP_eq_length]
    intro m hmem
    exact (hone m (mem_scan_neighbors.mp hmem).2).2.1
  have hpos : 0 < (scan s x.1 x.2).neighbors.length := List.length_pos_of_mem hnx
  apply hnone x hx
  refine ⟨hvx, ?_, ?_⟩
  · show s.visible_map x.1 x.2 - (scan s x.1 x.2).marked_mines = (scan s x.1 x.2).unknown_cells
    rw [scan_unknown]
    omega
  · show (scan s x.1 x.2).unknown_cells > 0
    rw [scan_unknown]
    omega

/-- C5 (determinism, as amended to grids with a consistent placement): on a grid
without exploded cell that admits a consistent mine placement, with the
probabilities produced by `updateMineProbabilities`, `Decide` does the same for
every two values of the random generator. -/
theorem decide_deterministic (s : Game) (mine : Int → Int → Bool) (hne : NoExploded s)
    (hc : Consistent s mine) (fuel : Nat) (s' : Game)
    (hupd : updateMineProbabilities fuel s = some s') (r1 r2 : Nat) :
    Decide s' r1 = Decide s' r2 := by
  rw [Decide_eq, Decide_eq]
  by_cases h1 : (findBestAutoExplore s').1 ≠ -1
  · rw [if_pos h1, if_pos h1]
  · rw [if_neg h1, if_neg h1]
    by_cases h2 : (findObviousMine s').1 ≠ -1
    · rw [if_pos h2, if_pos h2]
    · rw [if_neg h2, if_neg h2]
      by_cases h3 : (findObviousSafe s').1 ≠ -1
      · rw [if_pos h3, if_pos h3]
      · rw [if_neg h3, if_neg h3]
        by_cases h4 : (findSafestCell s').1 ≠ -1
        · rw [if_pos h4, if_pos h4]
        · rw [if_neg h4, if_neg h4]
          by_cases h5 : unknownCells s' ≠ []
          · rcases fallback_unreachable hne hc hupd ((unknownCells_ne_nil_iff s').mp h5) with h | h
            · exact absurd h h2
            · exact absurd h h4
          · rw [if_neg h5, if_neg h5]

/-- Witness for C5: the grid `???/111` with its mine at `(0, 1)`. -/
theorem decide_deterministic_witness :
    Decide ((updateMineProbabilities 2 (board 2 3 [[-1, -1, -1], [1, 1, 1]])).getD
        (board 2 3 [[-1, -1, -1], [1, 1, 1]])) 0 =
      Decide ((updateMineProbabilities 2 (board 2 3 [[-1, -1, -1], [1, 1, 1]])).getD
        (board 2 3 [[-1, -1, -1], [1, 1, 1]])) 1 :=
  decide_deterministic (board 2 3 [[-1, -1, -1], [1, 1, 1]]) (minesAt [(0, 1)])
    (by decide) (by decide) 2 _ (eq_some_getD _ _ (by decide)) 0 1

/-- C5, counterexample to the claim as stated: on the grid `232/?3?` (no
placement is consistent with it) the update leaves both hidden cells at `1.0`,
no rule of `Decide` applies, and the random value picks the cell: value `0`
gives `Execute(1, 0, 0)`, value `1` gives `Execute(1, 2, 0)`. -/
theorem decide_random_counterexample :
    (updateMineProbabilities 2 (board 2 3 [[2, 3, 2], [-1, 3, -1]])).map
        (fun s' => ((Decide s' 0).1, (Decide s' 1).1)) =
      some ([⟨1, 0, 0⟩], [⟨1, 2, 0⟩]) := by
  decide

/-- C7 (mark-mine rule, as amended): on a grid without exploded cell that admits
a consistent mine placement, with the probabilities produced by
`updateMineProbabilities`, if no revealed cell has its count equal to the number
of its marked neighbours together with a hidden-unmarked neighbour and the
propagation loop forces some cell to `1.0` (a revealed cell has
`count − marked == |U| > 0`), then `Decide` emits exactly one `Execute(r, c, 1)`,
on a hidden-unmarked cell of probability `1.0`. -/
theorem mark_mine_rule (s : Game) (mine : Int → Int → Bool) (hne : NoExploded s)
    (hc : Consistent s mine) (fuel : Nat) (s' : Game)
    (hupd : updateMineProbabilities fuel s = some s') (rnd : Nat)
    (hno : ∀ c ∈ cells s'.rows s'.columns, ¬ autoClearCandidate 0 s' c)
    (hforced : ∃ n, forcedMineIn s' (cells s'.rows s'.columns) n) :
    ∃ r c : Int, (Decide s' rnd).1 = [⟨r, c, 1⟩] ∧ 0 ≤ r ∧ r < s'.rows ∧ 0 ≤ c ∧ c < s'.columns ∧
      s'.visible_map r c = -1 ∧ s'.is_marked r c = false ∧ s'.mine_probability r c = 1 := by
  obtain ⟨q, rfl, hall⟩ := update_of_some hne hc hupd
  obtain ⟨n, x, hx, hrule, _⟩ := hforced
  have h1 : ¬ (findBestAutoExplore { s with mine_probability := q }).1 ≠ -1 := by
    rcases findBestAutoExplore_cases { s with mine_probability := q } with ⟨e, _⟩ | ⟨_, hm, hcand, _⟩
    · simp [e]
    · exact absurd ⟨by have := hcand.1; omega, hcand.2⟩ (hno _ hm)
  rcases findObviousMine_cases { s with mine_probability := q } with
    ⟨_, hnone⟩ | ⟨h2, c0, rest, hm, hr, hl, _⟩
  · exact absurd hrule (hnone x hx)
  · have hmem : findObviousMine { s with mine_probability := q } ∈ (scan s c0.1 c0.2).neighbors := by
      show _ ∈ (scan { s with mine_probability := q } c0.1 c0.2).neighbors
      rw [hl]; simp
    have hu := (mem_scan_neighbors.mp hmem).2
    obtain ⟨⟨a, b, c, d⟩, hk, hv⟩ := isHU_iff.mp hu
    have hone := (hall _ hu).2.2 ⟨c0, hm, hr, hmem⟩
    refine ⟨_, _, ?_, a, b, c, d, hv, hk, hone⟩
    rw [Decide_eq, if_neg h1, if_pos h2]

/-- Witness for C7: the grid `1?` with its mine at `(0, 1)`. -/
theorem mark_mine_rule_witness :
    ∃ r c : Int, (Decide ((updateMineProbabilities 2 (board 1 2 [[1, -1]])).getD
        (board 1 2 [[1, -1]])) 0).1 = [⟨r, c, 1⟩] ∧
      0 ≤ r ∧ r < (1 : Nat) ∧ 0 ≤ c ∧ c < (2 : Nat) ∧
      ((updateMineProbabilities 2 (board 1 2 [[1, -1]])).getD
        (board 1 2 [[1, -1]])).visible_map r c = -1 ∧
      ((updateMineProbabilities 2 (board 1 2 [[1, -1]])).getD
        (board 1 2 [[1, -1]])).is_marked r c = false ∧
      ((updateMineProbabilities 2 (board 1 2 [[1, -1]])).getD
        (board 1 2 [[1, -1]])).mine_probability r c = 1 :=
  mark_mine_rule (board 1 2 [[1, -1]]) (minesAt [(0, 1)]) (by decide) (by decide) 2 _
    (eq_some_getD _ _ (by decide)) 0 (by decide) ⟨(0, 1), by decide⟩

/-- C7, counterexample to the claim as stated.  On `???/121` (mines at `(0, 0)`
and `(0, 2)`) the pair analysis alone forces `(0, 2)` to `1.0`, no revealed cell
has its count marked, and `Decide` emits the visit `Execute(0, 0, 0)`, no mark.
On `211/???/111` (no consistent placement) `(1, 1)` has probability `1.0` and
`Decide` marks `(1, 0)`, whose probability the pair analysis has set to `0.0`. -/
theorem mark_mine_counterexample :
    (∃ s', updateMineProbabilities 2 (board 2 3 [[-1, -1, -1], [1, 2, 1]]) = some s' ∧
      (s'.visible_map 0 2 = -1 ∧ s'.is_marked 0 2 = false ∧ s'.mine_probability 0 2 = 1) ∧
      (∀ c ∈ cells s'.rows s'.columns, ¬ autoClearCandidate 0 s' c) ∧
      (Decide s' 0).1 = [⟨0, 0, 0⟩]) ∧
    (∃ s', updateMineProbabilities 2 (board 3 3 [[2, 1, 1], [-1, -1, -1], [1, 1, 1]]) = some s' ∧
      (s'.visible_map 1 1 = -1 ∧ s'.is_marked 1 1 = false ∧ s'.mine_probability 1 1 = 1) ∧
      (∀ c ∈ cells s'.rows s'.columns, ¬ autoClearCandidate 0 s' c) ∧
      (Decide s' 0).1 = [⟨1, 0, 1⟩] ∧ s'.mine_probability 1 0 = 0) :=
  ⟨⟨_, eq_some_getD _ (board 2 3 [[-1, -1, -1], [1, 2, 1]]) (by decide), by decide, by decide,
      by decide⟩,
    ⟨_, eq_some_getD _ (board 3 3 [[2, 1, 1], [-1, -1, -1], [1, 1, 1]]) (by decide), by decide,
      by decide, by decide, by decide⟩⟩

/-- C9 (visit-safe rule, as amended): on a grid without exploded cell that
admits a consistent mine placement, with the probabilities produced by
`updateMineProbabilities`, if `findBestAutoExplore` and `findObviousMine` both
return `{-1, -1}` and some hidden-unmarked cell has probability `0.0`, then
`Decide` emits exactly one `Execute(r, c, 0)`, on a hidden-unmarked cell of
probability `0.0`. -/
theorem visit_safe_rule (s : Game) (mine : Int → Int → Bool) (hne : NoExploded s)
    (hc : Consistent s mine) (fuel : Nat) (s' : Game)
    (hupd : updateMineProbabilities fuel s = some s') (rnd : Nat)
    (hauto : findBestAutoExplore s' = (-1, -1)) (hmine : findObviousMine s' = (-1, -1))
    (hsafe : ∃ i j : Int, 0 ≤ i ∧ i < s'.rows ∧ 0 ≤ j ∧ j < s'.columns ∧
      s'.visible_map i j = -1 ∧ s'.is_marked i j = false ∧ s'.mine_probability i j = 0) :
    ∃ r c : Int, (Decide s' rnd).1 = [⟨r, c, 0⟩] ∧ 0 ≤ r ∧ r < s'.rows ∧ 0 ≤ c ∧ c < s'.columns ∧
      s'.visible_map r c = -1 ∧ s'.is_marked r c = false ∧ s'.mine_probability r c = 0 := by
  obtain ⟨q, rfl, hall⟩ := update_of_some hne hc hupd
  have h1 : ¬ (findBestAutoExplore { s with mine_probability := q }).1 ≠ -1 := by
    rw [hauto]; simp
  have h2 : ¬ (findObviousMine { s with mine_probability := q }).1 ≠ -1 := by
    rw [hmine]; simp
  rcases findObviousSafe_cases { s with mine_probability := q } with
    ⟨h3, _⟩ | ⟨h3, c0, rest, hm, hr, hl⟩
  · have h3' : ¬ (findObviousSafe { s with mine_probability := q }).1 ≠ -1 := by simp [h3]
    obtain ⟨i, j, a, b, c, d, hv, hk, hp⟩ := hsafe
    rcases findSafestCell_cases { s with mine_probability := q } with
      ⟨_, hge⟩ | ⟨h4, hm, hv4, hk4, _, hmin⟩
    · have := hge (i, j) (mem_cells.mpr ⟨a, b, c, d⟩) hv hk
      exact absurd (show q i j < 1 by rw [show q i j = 0 from hp]; norm_num) this
    · obtain ⟨a4, b4, c4, d4⟩ := mem_cells.mp hm
      have hle := hmin (i, j) (mem_cells.mpr ⟨a, b, c, d⟩) hv hk
      have hle' : q (findSafestCell { s with mine_probability := q }).1
          (findSafestCell { s with mine_probability := q }).2 ≤ 0 := by
        rw [← show q i j = 0 from hp]; exact hle
      have hu : isHU s (findSafestCell { s with mine_probability := q }) = true :=
        isHU_iff.mpr ⟨⟨a4, b4, c4, d4⟩, hk4, hv4⟩
      refine ⟨_, _, ?_, a4, b4, c4, d4, hv4, hk4, ?_⟩
      · rw [Decide_eq, if_neg h1, if_neg h2, if_neg h3', if_pos h4]
      · rcases (hall _ hu).1 with h | ⟨h, _, _⟩ | ⟨h, _, _⟩
        · rw [h] at hle'
          exact absurd hle' (by decide)
        · exact h
        · rw [h] at hle'
          exact absurd hle' (by norm_num)
  · have hmem : findObviousSafe { s with mine_probability := q } ∈ (scan s c0.1 c0.2).neighbors := by
      show _ ∈ (scan { s with mine_probability := q } c0.1 c0.2).neighbors
      rw [hl]; simp
    have hu := (mem_scan_neighbors.mp hmem).2
    obtain ⟨⟨a, b, c, d⟩, hk, hv⟩ := isHU_iff.mp hu
    obtain ⟨hv0, hz, hpos⟩ := (obviousSafeAt_iff _ c0).mp hr
    have hrule : safeRule s c0 := ⟨hv0, le_of_eq hz, hpos⟩
    have hzero := (hall _ hu).2.1 ⟨c0, hm, hrule, hmem⟩
    refine ⟨_, _, ?_, a, b, c, d, hv, hk, hzero⟩
    rw [Decide_eq, if_neg h1, if_neg h2, if_pos h3]

/-- Witness for C9: the grid `0?`, whose hidden cell is safe. -/
theorem visit_safe_rule_witness :
    ∃ r c : Int, (Decide ((updateMineProbabilities 2 (board 1 2 [[0, -1]])).getD
        (board 1 2 [[0, -1]])) 0).1 = [⟨r, c, 0⟩] ∧
      0 ≤ r ∧ r < (1 : Nat) ∧ 0 ≤ c ∧ c < (2 : Nat) ∧
      ((updateMineProbabilities 2 (board 1 2 [[0, -1]])).getD
        (board 1 2 [[0, -1]])).visible_map r c = -1 ∧
      ((updateMineProbabilities 2 (board 1 2 [[0, -1]])).getD
        (board 1 2 [[0, -1]])).is_marked r c = false ∧
      ((updateMineProbabilities 2 (board 1 2 [[0, -1]])).getD
        (board 1 2 [[0, -1]])).mine_probability r c = 0 :=
  visit_safe_rule (board 1 2 [[0, -1]]) (minesAt []) (by decide) (by decide) 2 _
    (eq_some_getD _ _ (by decide)) 0 (by decide) (by decide) ⟨0, 1, by decide⟩

/-- C9, counterexample to the claim as stated: on the grid `2?3?0?` (one row; no
placement is consistent with it) `findBestAutoExplore` and `findObviousMine`
return `{-1, -1}`, the hidden cell `(0, 5)` has probability `0.0`, and `Decide`
visits `(0, 3)`, whose probability the pair analysis has set to `1.0`. -/
theorem visit_safe_counterexample :
    ∃ s', updateMineProbabilities 2 (board 1 6 [[2, -1, 3, -1, 0, -1]]) = some s' ∧
      findBestAutoExplore s' = (-1, -1) ∧ findObviousMine s' = (-1, -1) ∧
      (s'.visible_map 0 5 = -1 ∧ s'.is_marked 0 5 = false ∧ s'.mine_probability 0 5 = 0) ∧
      (Decide s' 0).1 = [⟨0, 3, 0⟩] ∧ s'.mine_probability 0 3 = 1 :=
  ⟨_, eq_some_getD _ (board 1 6 [[2, -1, 3, -1, 0, -1]]) (by decide), by decide, by decide,
    by decide, by decide, by decide⟩

/-! ## The subset rule of the pair analysis -/

theorem sublist_pair_of_sorted {l : List (Int × Int)} (hl : l.Pairwise rowMajorLt)
    {a b : Int × Int} (ha : a ∈ l) (hb : b ∈ l) (hab : rowMajorLt a b) : [a, b].Sublist l := by
  induction l with
  | nil => simp at ha
  | cons h t ih =>
    obtain ⟨hh, ht⟩ := List.pairwise_cons.mp hl
    rcases List.mem_cons.mp ha with rfl | ha'
    · rcases List.mem_cons.mp hb with rfl | hb'
      · exact absurd hab (rowMajorLt_irrefl _)
      · exact List.Sublist.cons₂ _ (List.singleton_sublist.mpr hb')
    · rcases List.mem_cons.mp hb with rfl | hb'
      · exact absurd (hh a ha') (rowMajorLt_asymm hab)
      · exact List.Sublist.cons _ (ih ht ha' hb')

theorem numberedCell_of_isConstraint {s : Game} {c : Int × Int} (h : isConstraint s c) :
    numberedCell s c = some ⟨c.1, c.2, remainingMines s c, hiddenNeighbours s c⟩ := by
  obtain ⟨h1, h2, h3, h4⟩ := h
  unfold remainingMines at h3 ⊢
  rw [hiddenNeighbours_eq] at h4 ⊢
  rw [markedNeighbours_eq] at h3 ⊢
  unfold numberedCell
  rw [if_pos ⟨h1, h2⟩]
  simp only
  rw [if_pos ⟨h3, h4⟩]

/-- C10 (subset safe rule, as amended): on a grid without exploded cell that
admits a consistent mine placement, for two constraints `A` and `B` with `A`
before `B` in row-major order, `U_A ⊆ U_B` and `m_A == m_B`, every cell of
`U_B \ U_A` has probability `0.0` after `performAdvancedPatternAnalysis`. -/
theorem subset_safe_rule (s : Game) (mine : Int → Int → Bool) (hne : NoExploded s)
    (hc : Consistent s mine) (A B : Int × Int) (hA : A ∈ cells s.rows s.columns)
    (hB : B ∈ cells s.rows s.columns) (hcA : isConstraint s A) (hcB : isConstraint s B)
    (hord : rowMajorLt A B)
    (hsub : ∀ n ∈ hiddenNeighbours s A, n ∈ hiddenNeighbours s B)
    (hm : remainingMines s A = remainingMines s B) :
    ∀ n ∈ hiddenNeighbours s B, n ∉ hiddenNeighbours s A →
      (performAdvancedPatternAnalysis s).mine_probability n.1 n.2 = 0 := by
  intro n hnB hnA
  have hx := numberedCell_of_isConstraint hcA
  have hy := numberedCell_of_isConstraint hcB
  have hsl : [(⟨A.1, A.2, remainingMines s A, hiddenNeighbours s A⟩ : Numbered),
      ⟨B.1, B.2, remainingMines s B, hiddenNeighbours s B⟩].Sublist (numbered_cells s) := by
    have := (sublist_pair_of_sorted (cells_sorted s.rows s.columns) hA hB hord).filterMap
      (numberedCell s)
    simpa [List.filterMap_cons, hx, hy] using this
  have hxm : (⟨A.1, A.2, remainingMines s A, hiddenNeighbours s A⟩ : Numbered) ∈ numbered_cells s :=
    hsl.subset (by simp)
  have hym : (⟨B.1, B.2, remainingMines s B, hiddenNeighbours s B⟩ : Numbered) ∈ numbered_cells s :=
    hsl.subset (by simp)
  have hpair : pairSafe ⟨A.1, A.2, remainingMines s A, hiddenNeighbours s A⟩
      ⟨B.1, B.2, remainingMines s B, hiddenNeighbours s B⟩ (n.1, n.2) :=
    ⟨isSubset_iff.mpr hsub, hm, mem_getDifference.mpr ⟨hnB, hnA⟩⟩
  have hnot := (pairSafe_sound hne hc hxm hym hpair).1
  show analysePairs (numbered_cells s) s.mine_probability n.1 n.2 = 0
  apply analysePairs_establish (fun q => q n.1 n.2 = 0) (numbered_cells s) _ _ _ hsl
  · intro q
    show analysePair _ _ q n.1 n.2 = 0
    rw [analysePair_apply, if_pos hpair]
  · intro x hx' y hy' q hq
    show analysePair x y q n.1 n.2 = 0
    rw [analysePair_apply]
    by_cases a : pairSafe x y (n.1, n.2)
    · rw [if_pos a]
    · rw [if_neg a]
      by_cases b : pairMine x y (n.1, n.2)
      · have := (pairMine_sound hne hc hx' hy' b).1
        rw [show mine (n.1, n.2).1 (n.1, n.2).2 = false from hnot] at this
        exact absurd this (by simp)
      · rw [if_neg b]
        exact hq

/-- Witness for C10: the grid `???/111` with its mine at `(0, 1)`, `A = (1, 0)`
and `B = (1, 1)`: the cell `(0, 2)` of `U_B \ U_A` is forced safe. -/
theorem subset_safe_rule_witness :
    (performAdvancedPatternAnalysis (board 2 3 [[-1, -1, -1], [1, 1, 1]])).mine_probability
      0 2 = 0 :=
  subset_safe_rule (board 2 3 [[-1, -1, -1], [1, 1, 1]]) (minesAt [(0, 1)]) (by decide)
    (by decide) (1, 0) (1, 1) (by decide) (by decide) (by decide) (by decide) (by decide)
    (by decide) (by decide) (0, 2) (by decide) (by decide)

/-- C10, counterexample to the claim as stated.  On `???/111` the constraints
`A = (1, 2)` and `B = (1, 1)` have `U_A ⊆ U_B` and `m_A == m_B`, but `A` comes
after `B` in row-major order and `(0, 0) ∈ U_B \ U_A` keeps probability `0.5`.
On `111/???/?4?` (no consistent placement) `A = (0, 0)` comes before
`B = (0, 1)`, `U_A ⊆ U_B`, `m_A == m_B`, and `(1, 2) ∈ U_B \ U_A` ends at
`1.0`, written later by the pair `((0, 0), (2, 1))`. -/
theorem subset_safe_counterexample :
    (isConstraint (board 2 3 [[-1, -1, -1], [1, 1, 1]]) (1, 2) ∧
      isConstraint (board 2 3 [[-1, -1, -1], [1, 1, 1]]) (1, 1) ∧
      (∀ n ∈ hiddenNeighbours (board 2 3 [[-1, -1, -1], [1, 1, 1]]) (1, 2),
        n ∈ hiddenNeighbours (board 2 3 [[-1, -1, -1], [1, 1, 1]]) (1, 1)) ∧
      remainingMines (board 2 3 [[-1, -1, -1], [1, 1, 1]]) (1, 2) =
        remainingMines (board 2 3 [[-1, -1, -1], [1, 1, 1]]) (1, 1) ∧
      (0, 0) ∈ hiddenNeighbours (board 2 3 [[-1, -1, -1], [1, 1, 1]]) (1, 1) ∧
      (0, 0) ∉ hiddenNeighbours (board 2 3 [[-1, -1, -1], [1, 1, 1]]) (1, 2) ∧
      (performAdvancedPatternAnalysis (board 2 3 [[-1, -1, -1], [1, 1, 1]])).mine_probability
        0 0 = half) ∧
    (isConstraint (board 3 3 [[1, 1, 1], [-1, -1, -1], [-1, 4, -1]]) (0, 0) ∧
      isConstraint (board 3 3 [[1, 1, 1], [-1, -1, -1], [-1, 4, -1]]) (0, 1) ∧
      rowMajorLt (0, 0) (0, 1) ∧
      (∀ n ∈ hiddenNeighbours (board 3 3 [[1, 1, 1], [-1, -1, -1], [-1, 4, -1]]) (0, 0),
        n ∈ hiddenNeighbours (board 3 3 [[1, 1, 1], [-1, -1, -1], [-1, 4, -1]]) (0, 1)) ∧
      remainingMines (board 3 3 [[1, 1, 1], [-1, -1, -1], [-1, 4, -1]]) (0, 0) =
        remainingMines (board 3 3 [[1, 1, 1], [-1, -1, -1], [-1, 4, -1]]) (0, 1) ∧
      (1, 2) ∈ hiddenNeighbours (board 3 3 [[1, 1, 1], [-1, -1, -1], [-1, 4, -1]]) (0, 1) ∧
      (1, 2) ∉ hiddenNeighbours (board 3 3 [[1, 1, 1], [-1, -1, -1], [-1, 4, -1]]) (0, 0) ∧
      (performAdvancedPatternAnalysis
        (board 3 3 [[1, 1, 1], [-1, -1, -1], [-1, 4, -1]])).mine_probability 1 2 = 1) := by
  refine ⟨⟨by decide, by decide, by decide, by decide, by decide, by decide, by decide⟩,
    ⟨by decide, by decide, by decide, by decide, by decide, by decide, by decide, by decide⟩⟩

/-! ## Ingesting snapshots -/

theorem ingestCell_grid (snapshot : List (List Char)) (s : Game) (c : Int × Int) :
    (ingestCell snapshot s c).rows = s.rows ∧ (ingestCell snapshot s c).columns = s.columns ∧
      (ingestCell snapshot s c).mine_probability = s.mine_probability := by
  unfold ingestCell
  simp only
  split_ifs <;> exact ⟨rfl, rfl, rfl⟩

theorem ingest_foldl_grid (snapshot : List (List Char)) (L : List (Int × Int)) (s : Game) :
    (L.foldl (ingestCell snapshot) s).rows = s.rows ∧
      (L.foldl (ingestCell snapshot) s).columns = s.columns ∧
      (L.foldl (ingestCell snapshot) s).mine_probability = s.mine_probability := by
  induction L generalizing s with
  | nil => exact ⟨rfl, rfl, rfl⟩
  | cons x L ih =>
    rw [List.foldl_cons]
    obtain ⟨a, b, c⟩ := ih (ingestCell snapshot s x)
    obtain ⟨a', b', c'⟩ := ingestCell_grid snapshot s x
    exact ⟨a.trans a', b.trans b', c.trans c'⟩

theorem ingest_grid (snapshot : List (List Char)) (s : Game) :
    (ingest snapshot s).rows = s.rows ∧ (ingest snapshot s).columns = s.columns ∧
      (ingest snapshot s).mine_probability = s.mine_probability :=
  ingest_foldl_grid snapshot _ s

/-! ## The values stored in `mine_probability` -/

theorem threeValued_setProb {p : Int → Int → ℚ} (hp : threeValued p) (c : Int × Int) {v : ℚ}
    (hv : v = 0 ∨ v = half ∨ v = 1) : threeValued (setProb p c v) := by
  intro i j
  unfold setProb
  by_cases h : i = c.1 ∧ j = c.2
  · rw [if_pos h]; exact hv
  · rw [if_neg h]; exact hp i j

theorem threeValued_reset (s : Game) (hp : threeValued s.mine_probability) :
    threeValued (resetProbabilities s) := by
  unfold resetProbabilities
  apply foldl_invariant threeValued
  · intro c _ q hq
    by_cases h : s.visible_map c.1 c.2 = -1 ∧ ¬ s.is_marked c.1 c.2
    · rw [if_pos h]; exact threeValued_setProb hq c (Or.inr (Or.inl rfl))
    · rw [if_neg h]; exact hq
  · exact hp

theorem threeValued_force {v : ℚ} (hv : v = 0 ∨ v = half ∨ v = 1)
    (L : List (Int × Int)) (st : (Int → Int → ℚ) × Bool) (hp : threeValued st.1) :
    threeValued (L.foldl (force v) st).1 := by
  apply foldl_invariant (fun st : (Int → Int → ℚ) × Bool => threeValued st.1)
  · intro c _ q hq
    unfold force
    by_cases h : q.1 c.1 c.2 ≠ v
    · rw [if_pos h]; exact threeValued_setProb hq c hv
    · rw [if_neg h]; exact hq
  · exact hp

theorem threeValued_pass (s : Game) (p : Int → Int → ℚ) (hp : threeValued p) :
    threeValued (pass s p).1 := by
  unfold pass
  apply foldl_invariant (fun st : (Int → Int → ℚ) × Bool => threeValued st.1)
  · intro c _ q hq
    rw [scanCell_eq]
    split_ifs
    · exact threeValued_force (Or.inl rfl) _ _ hq
    · exact threeValued_force (Or.inr (Or.inr rfl)) _ _ hq
    · exact hq
  · exact hp

theorem threeValued_propagate (s : Game) (fuel : Nat) (p r : Int → Int → ℚ)
    (hp : threeValued p) (h : propagate s fuel p = some r) : threeValued r := by
  induction fuel generalizing p with
  | zero => simp [propagate] at h
  | succ k ih =>
    rw [propagate] at h
    by_cases hch : (pass s p).2 = true
    · simp only [hch, if_true] at h
      exact ih _ (threeValued_pass s p hp) h
    · have hf : (pass s p).2 = false := by simpa using hch
      rw [hf] at h
      simp only [Bool.false_eq_true, if_false, Option.some.injEq] at h
      rw [← h]
      exact threeValued_pass s p hp

theorem threeValued_analysePairs (L : List Numbered) (p : Int → Int → ℚ)
    (hp : threeValued p) : threeValued (analysePairs L p) := by
  apply analysePairs_invariant threeValued L _ p hp
  intro x _ y _ q hq i j
  rw [analysePair_apply]
  split_ifs
  · exact Or.inl rfl
  · exact Or.inr (Or.inr rfl)
  · exact hq i j

theorem threeValued_update {fuel : Nat} {s s' : Game}
    (h : updateMineProbabilities fuel s = some s') (hp : threeValued s.mine_probability) :
    threeValued s'.mine_probability ∧ s'.rows = s.rows ∧ s'.columns = s.columns := by
  unfold updateMineProbabilities at h
  cases hr : propagate s fuel (resetProbabilities s) with
  | none => rw [hr] at h; exact absurd h (by simp)
  | some r =>
    rw [hr] at h
    simp only [Option.some.injEq] at h
    rw [← h]
    exact ⟨threeValued_analysePairs _ _
      (threeValued_propagate s fuel _ r (threeValued_reset s hp) hr), rfl, rfl⟩

theorem threeValued_readMaps (calls : List (Nat × List (List Char))) (s s' : Game)
    (hp : threeValued s.mine_probability) (h : readMaps calls s = some s') :
    threeValued s'.mine_probability ∧ s'.rows = s.rows ∧ s'.columns = s.columns := by
  induction calls generalizing s with
  | nil =>
    simp only [readMaps, Option.some.injEq] at h
    rw [← h]; exact ⟨hp, rfl, rfl⟩
  | cons x calls ih =>
    obtain ⟨fuel, snapshot⟩ := x
    rw [readMaps] at h
    cases hr : ReadMap fuel snapshot s with
    | none => rw [hr] at h; exact absurd h (by simp)
    | some s1 =>
      rw [hr] at h
      simp only at h
      obtain ⟨g1, g2, g3⟩ := ingest_grid snapshot s
      have h1 := threeValued_update hr (by rw [g3]; exact hp)
      obtain ⟨k1, k2, k3⟩ := ih s1 h1.1 h
      exact ⟨k1, by rw [k2, h1.2.1, g1], by rw [k3, h1.2.2, g2]⟩

/-- C16 (probability range invariant): after `InitGame` and any finite sequence
of `ReadMap` calls that all return, every entry of `mine_probability` is `0.0`,
`0.5` or `1.0`, and so lies between `0.0` and `1.0`. -/
theorem probability_range (rows columns : Nat) (first_row first_column : Int)
    (calls : List (Nat × List (List Char))) (s' : Game)
    (h : readMaps calls (InitGame rows columns first_row first_column).2 = some s') :
    ∀ i j : Int, (s'.mine_probability i j = 0 ∨ s'.mine_probability i j = half ∨
      s'.mine_probability i j = 1) ∧ 0 ≤ s'.mine_probability i j ∧ s'.mine_probability i j ≤ 1 := by
  have h0 : threeValued (InitGame rows columns first_row first_column).2.mine_probability :=
    fun _ _ => Or.inr (Or.inl rfl)
  have := (threeValued_readMaps calls _ s' h0 h).1
  intro i j
  refine ⟨this i j, ?_⟩
  rcases this i j with e | e | e <;> rw [e]
  · exact ⟨le_refl _, by norm_num⟩
  · exact ⟨by decide, by decide⟩
  · exact ⟨by norm_num, le_refl _⟩

/-- Witness for C16: a 1x2 game, first the snapshot `1?`, then `1@`; the entry
of the hidden cell is read afterwards. -/
theorem probability_range_witness :
    (((readMaps [(2, [['1', '?']]), (2, [['1', '@']])] (InitGame 1 2 0 0).2).getD
        (InitGame 1 2 0 0).2).mine_probability 0 1 = 0 ∨
      ((readMaps [(2, [['1', '?']]), (2, [['1', '@']])] (InitGame 1 2 0 0).2).getD
        (InitGame 1 2 0 0).2).mine_probability 0 1 = half ∨
      ((readMaps [(2, [['1', '?']]), (2, [['1', '@']])] (InitGame 1 2 0 0).2).getD
        (InitGame 1 2 0 0).2).mine_probability 0 1 = 1) ∧
    0 ≤ ((readMaps [(2, [['1', '?']]), (2, [['1', '@']])] (InitGame 1 2 0 0).2).getD
        (InitGame 1 2 0 0).2).mine_probability 0 1 ∧
    ((readMaps [(2, [['1', '?']]), (2, [['1', '@']])] (InitGame 1 2 0 0).2).getD
        (InitGame 1 2 0 0).2).mine_probability 0 1 ≤ 1 :=
  probability_range 1 2 0 0 [(2, [['1', '?']]), (2, [['1', '@']])] _
    (eq_some_getD _ _ (by decide)) 0 1

/-- C12 (no regression of revealed cells on ingest), evaluated on a 1x1 game:
after `InitGame` the snapshot `0` reveals the cell with count `0`; the next
snapshot `?` makes `ReadMap` store `-1` there, so the cell is hidden again. -/
theorem readMap_accepts_regression :
    ∃ s1 s2, ReadMap 1 [['0']] (InitGame 1 1 0 0).2 = some s1 ∧ s1.visible_map 0 0 = 0 ∧
      ReadMap 1 [['?']] s1 = some s2 ∧ s2.visible_map 0 0 = -1 :=
  ⟨_, _, eq_some_getD _ (InitGame 1 1 0 0).2 (by decide), by decide,
    eq_some_getD _ (InitGame 1 1 0 0).2 (by decide), by decide⟩

/-! ## What the cascade emits -/

/-- C13 (terminal no-move condition): on a grid without hidden-unmarked cell
`Decide` returns with no call of `Execute` and leaves the globals as they are,
whatever the random value. -/
theorem decide_no_move (s : Game) (rnd : Nat) (h : ¬ hasHiddenUnmarked s) :
    Decide s rnd = ([], s) := by
  have h1 : ¬ (findBestAutoExplore s).1 ≠ -1 := by
    rcases findBestAutoExplore_cases s with ⟨e, _⟩ | ⟨_, _, hcand, _⟩
    · simp [e]
    · obtain ⟨n, rest, hl⟩ := List.exists_cons_of_ne_nil hcand.2.2.2
      have hn : n ∈ hiddenNeighbours s (findBestAutoExplore s) := by rw [hl]; simp
      exact absurd (hasHiddenUnmarked_of_isHU (List.mem_filter.mp hn).2) h
  have h2 : ¬ (findObviousMine s).1 ≠ -1 := by
    rcases findObviousMine_cases s with ⟨e, _⟩ | ⟨_, c0, rest, _, _, hl, _⟩
    · simp [e]
    · have hn : findObviousMine s ∈ (scan s c0.1 c0.2).neighbors := by rw [hl]; simp
      exact absurd (hasHiddenUnmarked_of_isHU (mem_scan_neighbors.mp hn).2) h
  have h3 : ¬ (findObviousSafe s).1 ≠ -1 := by
    rcases findObviousSafe_cases s with ⟨e, _⟩ | ⟨_, c0, rest, _, _, hl⟩
    · simp [e]
    · have hn : findObviousSafe s ∈ (scan s c0.1 c0.2).neighbors := by rw [hl]; simp
      exact absurd (hasHiddenUnmarked_of_isHU (mem_scan_neighbors.mp hn).2) h
  have h4 : ¬ (findSafestCell s).1 ≠ -1 := by
    rcases findSafestCell_cases s with ⟨e, _⟩ | ⟨_, hm, hv, hk, _⟩
    · simp [e]
    · obtain ⟨a, b, c, d⟩ := mem_cells.mp hm
      exact absurd ⟨_, _, a, b, c, d, hv, hk⟩ h
  have h5 : ¬ unknownCells s ≠ [] := fun k => h ((unknownCells_ne_nil_iff s).mp k)
  rw [Decide_eq, if_neg h1, if_neg h2, if_neg h3, if_neg h4, if_neg h5]

/-- Witness for C13: the 1x2 grid `0@`, a revealed cell and a marked one. -/
theorem decide_no_move_witness :
    Decide (markedBoard 1 2 [[0, -1]] [(0, 1)]) 7 = ([], markedBoard 1 2 [[0, -1]] [(0, 1)]) :=
  decide_no_move (markedBoard 1 2 [[0, -1]] [(0, 1)]) 7 (by
    rw [← unknownCells_ne_nil_iff]
    decide)

/-- The only branch of `Decide` that emits an action of type `1` is the second. -/
theorem decide_mark_branch {s : Game} {rnd : Nat} {r c : Int}
    (h : (⟨r, c, 1⟩ : Action) ∈ (Decide s rnd).1) :
    (findObviousMine s).1 ≠ -1 ∧ findObviousMine s = (r, c) := by
  rw [Decide_eq] at h
  split_ifs at h with h1 h2 h3 h4 h5
  · simp at h
  · simp only [List.mem_singleton, Action.mk.injEq] at h
    exact ⟨h2, Prod.ext h.1.symm h.2.1.symm⟩
  · simp at h
  · simp at h
  · simp at h
  · simp at h

/-- C19 (mark actions only target real mines): on a grid without exploded cell
and for every mine placement consistent with it, a call `Execute(r, c, 1)` made
by `Decide` is on a hidden-unmarked cell of the grid that is a mine of the
placement. -/
theorem mark_targets_mine (s : Game) (mine : Int → Int → Bool) (hne : NoExploded s)
    (hc : Consistent s mine) (rnd : Nat) (r c : Int)
    (h : (⟨r, c, 1⟩ : Action) ∈ (Decide s rnd).1) :
    0 ≤ r ∧ r < s.rows ∧ 0 ≤ c ∧ c < s.columns ∧ s.visible_map r c = -1 ∧
      s.is_marked r c = false ∧ mine r c = true := by
  obtain ⟨hne1, heq⟩ := decide_mark_branch h
  rcases findObviousMine_cases s with ⟨e, _⟩ | ⟨_, c0, rest, hm, hr, hl, _⟩
  · exact absurd e hne1
  · have hn : (r, c) ∈ (scan s c0.1 c0.2).neighbors := by rw [hl, heq]; simp
    obtain ⟨⟨a, b, d, e⟩, hk, hv⟩ := scan_neighbors_inBounds hn
    exact ⟨a, b, d, e, hv, hk, rule1_sound hne hc hm hr.1 hr.2.1 (r, c) hn⟩

/-- Witness for C19: the grid `1?` with its mine at `(0, 1)`. -/
theorem mark_targets_mine_witness :
    0 ≤ (0 : Int) ∧ (0 : Int) < (board 1 2 [[1, -1]]).rows ∧ 0 ≤ (1 : Int) ∧
      (1 : Int) < (board 1 2 [[1, -1]]).columns ∧ (board 1 2 [[1, -1]]).visible_map 0 1 = -1 ∧
      (board 1 2 [[1, -1]]).is_marked 0 1 = false ∧ minesAt [(0, 1)] 0 1 = true :=
  mark_targets_mine (board 1 2 [[1, -1]]) (minesAt [(0, 1)]) (by decide) (by decide) 0 0 1
    (by decide)

/-- The only branch of `Decide` that emits an action of type `2` is the first. -/
theorem decide_auto_branch {s : Game} {rnd : Nat} {r c : Int}
    (h : (⟨r, c, 2⟩ : Action) ∈ (Decide s rnd).1) :
    (findBestAutoExplore s).1 ≠ -1 ∧ findBestAutoExplore s = (r, c) := by
  rw [Decide_eq] at h
  split_ifs at h with h1 h2 h3 h4 h5
  · simp only [List.mem_singleton, Action.mk.injEq] at h
    exact ⟨h1, Prod.ext h.1.symm h.2.1.symm⟩
  · simp at h
  · simp at h
  · simp at h
  · simp at h
  · simp at h

/-- C20 (certain reveals never hit a mine): on a grid without exploded cell and
for every mine placement consistent with it, (1) when `Decide` calls
`Execute(r, c, 2)`, no hidden-unmarked neighbour of `(r, c)` is a mine of the
placement, and (2) when `Decide` reaches its third rule, it emits exactly the
visit of the cell returned by `findObviousSafe`, which is a hidden-unmarked
cell of the grid and not a mine of the placement. -/
theorem certain_reveals_safe (s : Game) (mine : Int → Int → Bool) (hne : NoExploded s)
    (hc : Consistent s mine) (rnd : Nat) :
    (∀ r c : Int, (⟨r, c, 2⟩ : Action) ∈ (Decide s rnd).1 →
      ∀ n ∈ hiddenNeighbours s (r, c), mine n.1 n.2 = false) ∧
    ((findBestAutoExplore s).1 = -1 → (findObviousMine s).1 = -1 →
      (findObviousSafe s).1 ≠ -1 →
      (Decide s rnd).1 = [⟨(findObviousSafe s).1, (findObviousSafe s).2, 0⟩] ∧
        isHU s (findObviousSafe s) = true ∧
        mine (findObviousSafe s).1 (findObviousSafe s).2 = false) := by
  constructor
  · intro r c h n hn
    obtain ⟨hne1, heq⟩ := decide_auto_branch h
    rcases findBestAutoExplore_cases s with ⟨e, _⟩ | ⟨_, hm, hcand, _⟩
    · exact absurd e hne1
    · rw [heq] at hm hcand
      obtain ⟨h1, h2, h3, _⟩ := hcand
      rw [hiddenNeighbours_eq] at hn
      have hz : s.visible_map r c - (scan s r c).marked_mines ≤ 0 := by
        have := markedNeighbours_eq s (r, c)
        simp only at this h3
        omega
      exact rule0_sound hne hc hm ⟨by omega, h2⟩ hz n hn
  · intro h1 h2 h3
    rcases findObviousSafe_cases s with ⟨e, _⟩ | ⟨_, c0, rest, hm, hr, hl⟩
    · exact absurd e h3
    · have hn : findObviousSafe s ∈ (scan s c0.1 c0.2).neighbors := by rw [hl]; simp
      obtain ⟨hv0, hz, _⟩ := (obviousSafeAt_iff s c0).mp hr
      refine ⟨?_, (mem_scan_neighbors.mp hn).2,
        rule0_sound hne hc hm hv0 (le_of_eq hz) _ hn⟩
      rw [Decide_eq, if_neg (by simp [h1]), if_neg (by simp [h2]), if_pos h3]

/-- Witness for C20: on `@1?` with its mine at the marked `(0, 0)`, `Decide`
auto-explores `(0, 1)` and the hidden neighbour `(0, 2)` is no mine; on `0?`
without mine, `Decide` visits `(0, 1)` by its third rule. -/
theorem certain_reveals_safe_witness :
    minesAt [(0, 0)] 0 2 = false ∧
    ((Decide (board 1 2 [[0, -1]]) 0).1 =
        [⟨(findObviousSafe (board 1 2 [[0, -1]])).1, (findObviousSafe (board 1 2 [[0, -1]])).2, 0⟩] ∧
      isHU (board 1 2 [[0, -1]]) (findObviousSafe (board 1 2 [[0, -1]])) = true ∧
      minesAt [] (findObviousSafe (board 1 2 [[0, -1]])).1
        (findObviousSafe (board 1 2 [[0, -1]])).2 = false) :=
  ⟨(certain_reveals_safe (markedBoard 1 3 [[-1, 1, -1]] [(0, 0)]) (minesAt [(0, 0)]) (by decide)
      (by decide) 0).1 0 1 (by decide) (0, 2) (by decide),
    (certain_reveals_safe (board 1 2 [[0, -1]]) (minesAt []) (by decide) (by decide) 0).2
      (by decide) (by decide) (by decide)⟩

/-- C18 (the random fallback is unreachable on consistent grids): on a grid
without exploded cell that admits a consistent mine placement and has a
hidden-unmarked cell, with the probabilities produced by
`updateMineProbabilities`, one of the four searches of `Decide` returns a cell,
`Decide` emits the action of the first one that does, and the result is the
same for every value of the random generator. -/
theorem fallback_never_taken (s : Game) (mine : Int → Int → Bool) (hne : NoExploded s)
    (hc : Consistent s mine) (fuel : Nat) (s' : Game)
    (hupd : updateMineProbabilities fuel s = some s') (hU : hasHiddenUnmarked s') :
    ((findBestAutoExplore s').1 ≠ -1 ∨ (findObviousMine s').1 ≠ -1 ∨
      (findObviousSafe s').1 ≠ -1 ∨ (findSafestCell s').1 ≠ -1) ∧
    ∀ rnd : Nat, Decide s' rnd =
      if (findBestAutoExplore s').1 ≠ -1 then
        ([⟨(findBestAutoExplore s').1, (findBestAutoExplore s').2, 2⟩], s')
      else if (findObviousMine s').1 ≠ -1 then
        ([⟨(findObviousMine s').1, (findObviousMine s').2, 1⟩],
          { s' with total_mines_marked := s'.total_mines_marked + 1 })
      else if (findObviousSafe s').1 ≠ -1 then
        ([⟨(findObviousSafe s').1, (findObviousSafe s').2, 0⟩], s')
      else ([⟨(findSafestCell s').1, (findSafestCell s').2, 0⟩], s') := by
  have hfb := fallback_unreachable hne hc hupd hU
  constructor
  · rcases hfb with h | h
    · exact Or.inr (Or.inl h)
    · exact Or.inr (Or.inr (Or.inr h))
  · intro rnd
    rw [Decide_eq]
    by_cases h1 : (findBestAutoExplore s').1 ≠ -1
    · rw [if_pos h1, if_pos h1]
    · rw [if_neg h1, if_neg h1]
      by_cases h2 : (findObviousMine s').1 ≠ -1
      · rw [if_pos h2, if_pos h2]
      · rw [if_neg h2, if_neg h2]
        by_cases h3 : (findObviousSafe s').1 ≠ -1
        · rw [if_pos h3, if_pos h3]
        · rw [if_neg h3, if_neg h3]
          rcases hfb with h | h
          · exact absurd h h2
          · rw [if_pos h]

/-- Witness for C18: the grid `???/111` with its mine at `(0, 1)`: one of the
four searches returns a cell. -/
theorem fallback_never_taken_witness :
    (findBestAutoExplore ((updateMineProbabilities 2 (board 2 3 [[-1, -1, -1], [1, 1, 1]])).getD
        (board 2 3 [[-1, -1, -1], [1, 1, 1]]))).1 ≠ -1 ∨
    (findObviousMine ((updateMineProbabilities 2 (board 2 3 [[-1, -1, -1], [1, 1, 1]])).getD
        (board 2 3 [[-1, -1, -1], [1, 1, 1]]))).1 ≠ -1 ∨
    (findObviousSafe ((updateMineProbabilities 2 (board 2 3 [[-1, -1, -1], [1, 1, 1]])).getD
        (board 2 3 [[-1, -1, -1], [1, 1, 1]]))).1 ≠ -1 ∨
    (findSafestCell ((updateMineProbabilities 2 (board 2 3 [[-1, -1, -1], [1, 1, 1]])).getD
        (board 2 3 [[-1, -1, -1], [1, 1, 1]]))).1 ≠ -1 :=
  (fallback_never_taken (board 2 3 [[-1, -1, -1], [1, 1, 1]]) (minesAt [(0, 1)])
    (by decide) (by decide) 2 _ (eq_some_getD _ (board 2 3 [[-1, -1, -1], [1, 1, 1]]) (by decide))
    ⟨0, 0, by decide⟩).1

/-! ## Termination of the propagation loop -/

theorem forcedSafeIn_cells_iff (s : Game) (n : Int × Int) :
    forcedSafeIn s (cells s.rows s.columns) n ↔
      isHU s n = true ∧ ∃ c ∈ cells s.rows s.columns,
        (0 ≤ s.visible_map c.1 c.2 ∧ s.visible_map c.1 c.2 ≤ 8) ∧
        max 0 (s.visible_map c.1 c.2 - (markedNeighbours s c : Nat)) = 0 ∧ n ∈ nbrs c.1 c.2 := by
  constructor
  · rintro ⟨c, hc, ⟨hv, h0, _⟩, hn⟩
    obtain ⟨hnb, hu⟩ := mem_scan_neighbors.mp hn
    refine ⟨hu, c, hc, hv, ?_, hnb⟩
    rw [markedNeighbours_eq]
    exact max_eq_left h0
  · rintro ⟨hu, c, hc, hv, h0, hnb⟩
    have hn : n ∈ (scan s c.1 c.2).neighbors := mem_scan_neighbors.mpr ⟨hnb, hu⟩
    rw [markedNeighbours_eq] at h0
    refine ⟨c, hc, ⟨hv, ?_, ?_⟩, hn⟩
    · have := le_max_right 0 (s.visible_map c.1 c.2 - (scan s c.1 c.2).marked_mines)
      omega
    · exact (unknown_pos_iff s c).mpr (List.ne_nil_of_mem hn)

theorem forcedMineIn_cells_iff (s : Game) (n : Int × Int) :
    forcedMineIn s (cells s.rows s.columns) n ↔
      isHU s n = true ∧ ∃ c ∈ cells s.rows s.columns,
        (0 ≤ s.visible_map c.1 c.2 ∧ s.visible_map c.1 c.2 ≤ 8) ∧
        s.visible_map c.1 c.2 - (markedNeighbours s c : Nat) =
          ((hiddenNeighbours s c).length : Nat) ∧
        0 < (hiddenNeighbours s c).length ∧ n ∈ nbrs c.1 c.2 := by
  constructor
  · rintro ⟨c, hc, hr, hn⟩
    obtain ⟨hnb, hu⟩ := mem_scan_neighbors.mp hn
    obtain ⟨a, b, d, e⟩ := (mineRule_iff s c).mp hr
    exact ⟨hu, c, hc, ⟨a, b⟩, d, e, hnb⟩
  · rintro ⟨hu, c, hc, ⟨a, b⟩, d, e, hnb⟩
    exact ⟨c, hc, (mineRule_iff s c).mpr ⟨a, b, d, e⟩, mem_scan_neighbors.mpr ⟨hnb, hu⟩⟩

theorem conflictCell_iff (s : Game) (n : Int × Int) :
    conflictCell s n ↔
      forcedSafeIn s (cells s.rows s.columns) n ∧ forcedMineIn s (cells s.rows s.columns) n := by
  rw [forcedSafeIn_cells_iff, forcedMineIn_cells_iff]
  unfold conflictCell
  constructor
  · rintro ⟨hu, h0, h1⟩
    exact ⟨⟨hu, h0⟩, ⟨hu, h1⟩⟩
  · rintro ⟨⟨hu, h0⟩, ⟨_, h1⟩⟩
    exact ⟨hu, h0, h1⟩

theorem noConflict_of_propagate_some {s : Game} {fuel : Nat} {p r : Int → Int → ℚ}
    (h : propagate s fuel p = some r) (n : Int × Int)
    (h0 : forcedSafeIn s (cells s.rows s.columns) n)
    (h1 : forcedMineIn s (cells s.rows s.columns) n) : False := by
  rw [propagate_of_conflict s n h0 h1 fuel p] at h
  exact absurd h (by simp)

/-- C17 (the loop never chains deductions; conflicts characterise its
termination): the loop `while (changed)` of `updateMineProbabilities` returns
for some number of passes if and only if the grid has no conflict cell; when it
returns, two passes are enough and the probabilities it leaves are those of one
single pass after the reset. -/
theorem loop_terminates_iff_no_conflict (s : Game) :
    ((∃ fuel r, propagate s fuel (resetProbabilities s) = some r) ↔ ¬ ∃ n, conflictCell s n) ∧
    (∀ fuel r, propagate s fuel (resetProbabilities s) = some r →
      propagate s 2 (resetProbabilities s) = some r ∧ r = (pass s (resetProbabilities s)).1) := by
  constructor
  · constructor
    · rintro ⟨fuel, r, h⟩ ⟨n, hn⟩
      obtain ⟨h0, h1⟩ := (conflictCell_iff s n).mp hn
      exact noConflict_of_propagate_some h n h0 h1
    · intro hno
      have hnc : ∀ n, forcedSafeIn s (cells s.rows s.columns) n →
          forcedMineIn s (cells s.rows s.columns) n → False :=
        fun n h0 h1 => hno ⟨n, (conflictCell_iff s n).mpr ⟨h0, h1⟩⟩
      exact ⟨2, _, propagate_of_noConflict s hnc _ 2 (le_refl 2)⟩
  · intro fuel r h
    have hnc := noConflict_of_propagate_some h
    have hr := propagate_some s hnc h
    rw [hr]
    exact ⟨propagate_of_noConflict s hnc _ 2 (le_refl 2), rfl⟩

/-! ## The local rules in the result of the update -/

/-- C15 (local deduction rules take effect, as amended to grids with a
consistent placement): on a grid without exploded cell that admits a consistent
mine placement, in the result of `updateMineProbabilities`, every
hidden-unmarked neighbour of a revealed cell whose clipped remaining count is
`0` has probability `0.0`, and every hidden-unmarked neighbour of a revealed
cell whose remaining count equals `|U| > 0` has probability `1.0`. -/
theorem local_rules_take_effect (s : Game) (mine : Int → Int → Bool) (hne : NoExploded s)
    (hc : Consistent s mine) (fuel : Nat) (s' : Game)
    (hupd : updateMineProbabilities fuel s = some s') :
    (∀ c ∈ cells s'.rows s'.columns, 0 ≤ s'.visible_map c.1 c.2 → s'.visible_map c.1 c.2 ≤ 8 →
      max 0 (s'.visible_map c.1 c.2 - (markedNeighbours s' c : Nat)) = 0 →
      ∀ n ∈ hiddenNeighbours s' c, s'.mine_probability n.1 n.2 = 0) ∧
    (∀ c ∈ cells s'.rows s'.columns, 0 ≤ s'.visible_map c.1 c.2 → s'.visible_map c.1 c.2 ≤ 8 →
      max 0 (s'.visible_map c.1 c.2 - (markedNeighbours s' c : Nat)) =
        ((hiddenNeighbours s' c).length : Nat) →
      0 < (hiddenNeighbours s' c).length →
      ∀ n ∈ hiddenNeighbours s' c, s'.mine_probability n.1 n.2 = 1) := by
  obtain ⟨q, rfl, hall⟩ := update_of_some hne hc hupd
  constructor
  · intro c hc' h1 h2 h0 n hn
    have hn' : n ∈ hiddenNeighbours s c := hn
    obtain ⟨hnb, hu⟩ := List.mem_filter.mp hn'
    exact (hall n hu).2.1 ((forcedSafeIn_cells_iff s n).mpr ⟨hu, c, hc', ⟨h1, h2⟩, h0, hnb⟩)
  · intro c hc' h1 h2 h0 hpos n hn
    have hn' : n ∈ hiddenNeighbours s c := hn
    obtain ⟨hnb, hu⟩ := List.mem_filter.mp hn'
    have hpos' : 0 < (hiddenNeighbours s c).length := hpos
    have h0' : max 0 (s.visible_map c.1 c.2 - (markedNeighbours s c : Nat)) =
        ((hiddenNeighbours s c).length : Nat) := h0
    have heq : s.visible_map c.1 c.2 - (markedNeighbours s c : Nat) =
        ((hiddenNeighbours s c).length : Nat) := by
      rcases max_cases 0 (s.visible_map c.1 c.2 - (markedNeighbours s c : Nat)) with ⟨e, _⟩ | ⟨e, _⟩
      · rw [e] at h0'; omega
      · rw [e] at h0'; exact h0'
    exact (hall n hu).2.2
      ((forcedMineIn_cells_iff s n).mpr ⟨hu, c, hc', ⟨h1, h2⟩, heq, hpos', hnb⟩)

/-- Witness for C15: the grid `???/1??/0??` with its mine at `(0, 0)`: the
revealed `0` at `(2, 0)` gives `(1, 1)` and `(2, 1)` probability `0.0`. -/
theorem local_rules_take_effect_witness :
    ((updateMineProbabilities 2 (board 3 3 [[-1, -1, -1], [1, -1, -1], [0, -1, -1]])).getD
        (board 3 3 [[-1, -1, -1], [1, -1, -1], [0, -1, -1]])).mine_probability 1 1 = 0 ∧
    ((updateMineProbabilities 2 (board 3 3 [[-1, -1, -1], [1, -1, -1], [0, -1, -1]])).getD
        (board 3 3 [[-1, -1, -1], [1, -1, -1], [0, -1, -1]])).mine_probability 2 1 = 0 :=
  ⟨(local_rules_take_effect (board 3 3 [[-1, -1, -1], [1, -1, -1], [0, -1, -1]])
      (minesAt [(0, 0)]) (by decide) (by decide) 2 _
      (eq_some_getD _ (board 3 3 [[-1, -1, -1], [1, -1, -1], [0, -1, -1]]) (by decide))).1
      (2, 0) (by decide) (by decide) (by decide) (by decide) (1, 1) (by decide),
    (local_rules_take_effect (board 3 3 [[-1, -1, -1], [1, -1, -1], [0, -1, -1]])
      (minesAt [(0, 0)]) (by decide) (by decide) 2 _
      (eq_some_getD _ (board 3 3 [[-1, -1, -1], [1, -1, -1], [0, -1, -1]]) (by decide))).1
      (2, 0) (by decide) (by decide) (by decide) (by decide) (2, 1) (by decide)⟩

/-- C15, counterexample to the claim as stated.  On `2?3?0?` (one row; no
consistent placement) the update returns; the revealed `0` at `(0, 4)` has
remaining count `0` and the hidden-unmarked neighbour `(0, 3)`, whose
probability ends at `1.0`.  On `211/???/111` the revealed `2` at `(0, 0)` has
remaining count `2 = |U|` and the hidden-unmarked neighbour `(1, 0)`, whose
probability ends at `0.0`. -/
theorem local_rules_counterexample :
    (∃ s', updateMineProbabilities 2 (board 1 6 [[2, -1, 3, -1, 0, -1]]) = some s' ∧
      (0, 4) ∈ cells s'.rows s'.columns ∧ s'.visible_map 0 4 = 0 ∧
      max 0 (s'.visible_map 0 4 - (markedNeighbours s' (0, 4) : Nat)) = 0 ∧
      (0, 3) ∈ hiddenNeighbours s' (0, 4) ∧ s'.mine_probability 0 3 = 1) ∧
    (∃ s', updateMineProbabilities 2 (board 3 3 [[2, 1, 1], [-1, -1, -1], [1, 1, 1]]) = some s' ∧
      (0, 0) ∈ cells s'.rows s'.columns ∧ s'.visible_map 0 0 = 2 ∧
      max 0 (s'.visible_map 0 0 - (markedNeighbours s' (0, 0) : Nat)) =
        ((hiddenNeighbours s' (0, 0)).length : Nat) ∧
      0 < (hiddenNeighbours s' (0, 0)).length ∧
      (1, 0) ∈ hiddenNeighbours s' (0, 0) ∧ s'.mine_probability 1 0 = 0) :=
  ⟨⟨_, eq_some_getD _ (board 1 6 [[2, -1, 3, -1, 0, -1]]) (by decide), by decide, by decide,
      by decide, by decide, by decide⟩,
    ⟨_, eq_some_getD _ (board 3 3 [[2, 1, 1], [-1, -1, -1], [1, 1, 1]]) (by decide), by decide,
      by decide, by decide, by decide, by decide, by decide⟩⟩

/-! ## The minimum-probability query -/

theorem safest_fold_first (s : Game) (L : List (Int × Int)) (hs : L.Pairwise rowMajorLt)
    (hL : ∀ c ∈ L, 0 ≤ c.1) (hmem : (L.foldl (safestStep s) (1, (-1, -1))).2 ∈ L) :
    ∀ c ∈ L, s.visible_map c.1 c.2 = -1 → s.is_marked c.1 c.2 = false →
      s.mine_probability c.1 c.2 = (L.foldl (safestStep s) (1, (-1, -1))).1 →
      (L.foldl (safestStep s) (1, (-1, -1))).2 = c ∨
        rowMajorLt (L.foldl (safestStep s) (1, (-1, -1))).2 c := by
  induction L using List.reverseRecOn with
  | nil => simp
  | append_singleton L x ih =>
    have hL' : ∀ c ∈ L, 0 ≤ c.1 := fun c hc => hL c (List.mem_append_left _ hc)
    obtain ⟨hsL, _, hlt⟩ := List.pairwise_append.mp hs
    have hltx : ∀ c ∈ L, rowMajorLt c x := fun c hc => hlt c hc x (by simp)
    have hfold := safest_fold s L hL'
    rw [List.foldl_append, List.foldl_cons, List.foldl_nil] at hmem ⊢
    generalize L.foldl (safestStep s) (1, (-1, -1)) = acc at ih hfold hmem ⊢
    unfold safestStep at hmem ⊢
    by_cases hx : s.visible_map x.1 x.2 = -1 ∧ ¬ s.is_marked x.1 x.2
    · rw [if_pos hx] at hmem ⊢
      by_cases hxlt : s.mine_probability x.1 x.2 < acc.1
      · rw [if_pos hxlt]
        intro c hc hv hm hp
        rcases List.mem_append.mp hc with hc | hc
        · exfalso
          simp only at hp
          rcases hfold with ⟨e, hall⟩ | ⟨_, _, _, _, _, hall⟩
          · rw [e] at hxlt
            exact hall c hc hv hm (by rw [hp]; exact hxlt)
          · have := hall c hc hv hm
            rw [hp] at this
            exact absurd hxlt (not_lt.mpr this)
        · exact Or.inl (List.mem_singleton.mp hc).symm
      · rw [if_neg hxlt] at hmem ⊢
        have hacc : acc.2 ∈ L := by
          rcases hfold with ⟨e, _⟩ | ⟨h, _⟩
          · rw [e] at hmem
            have := hL _ hmem
            simp at this
          · exact h
        intro c hc hv hm hp
        rcases List.mem_append.mp hc with hc | hc
        · exact ih hsL hL' hacc c hc hv hm hp
        · rw [List.mem_singleton.mp hc]
          exact Or.inr (hltx _ hacc)
    · rw [if_neg hx] at hmem ⊢
      have hacc : acc.2 ∈ L := by
        rcases hfold with ⟨e, _⟩ | ⟨h, _⟩
        · rw [e] at hmem
          have := hL _ hmem
          simp at this
        · exact h
      intro c hc hv hm hp
      rcases List.mem_append.mp hc with hc | hc
      · exact ih hsL hL' hacc c hc hv hm hp
      · rw [List.mem_singleton.mp hc]
        exact Or.inr (hltx _ hacc)

/-- When some hidden-unmarked cell has a probability below `1.0`,
`findSafestCell` returns a hidden-unmarked cell of minimum probability, the
first one in row-major order among those of minimum probability. -/
theorem findSafestCell_first_min (s : Game)
    (h : ∃ c ∈ cells s.rows s.columns, s.visible_map c.1 c.2 = -1 ∧ s.is_marked c.1 c.2 = false ∧
      s.mine_probability c.1 c.2 < 1) :
    findSafestCell s ∈ cells s.rows s.columns ∧
      s.visible_map (findSafestCell s).1 (findSafestCell s).2 = -1 ∧
      s.is_marked (findSafestCell s).1 (findSafestCell s).2 = false ∧
      ∀ c ∈ cells s.rows s.columns, s.visible_map c.1 c.2 = -1 → s.is_marked c.1 c.2 = false →
        s.mine_probability (findSafestCell s).1 (findSafestCell s).2 ≤ s.mine_probability c.1 c.2 ∧
        (s.mine_probability c.1 c.2 = s.mine_probability (findSafestCell s).1 (findSafestCell s).2 →
          findSafestCell s = c ∨ rowMajorLt (findSafestCell s) c) := by
  obtain ⟨c0, hc0, hv0, hm0, hp0⟩ := h
  rcases findSafestCell_cases s with ⟨_, hge⟩ | ⟨_, hm, hv, hk, _, hmin⟩
  · exact absurd hp0 (hge c0 hc0 hv0 hm0)
  · refine ⟨hm, hv, hk, fun c hc hvc hmc => ⟨hmin c hc hvc hmc, fun hp => ?_⟩⟩
    have hL : ∀ c ∈ cells s.rows s.columns, 0 ≤ c.1 := fun c hc => (mem_cells.mp hc).1
    have hfirst := safest_fold_first s _ (cells_sorted s.rows s.columns) hL hm c hc hvc hmc
    rcases safest_fold s (cells s.rows s.columns) hL with ⟨e, _⟩ | ⟨_, _, _, h3, _, _⟩
    · have hm' : ((cells s.rows s.columns).foldl (safestStep s) (1, (-1, -1))).2 ∈
          cells s.rows s.columns := hm
      rw [e] at hm'
      have := hL _ hm'
      simp at this
    · exact hfirst (hp.trans h3)

/-- C11 (minimum-probability query), evaluated on the state left by the update
of the grid `1?`: the hidden-unmarked cell `(0, 1)` has probability `1.0`, which
lies in `[0, 1]` and is the minimum over the hidden-unmarked cells, and
`findSafestCell` returns `{-1, -1}` instead of that cell. -/
theorem findSafestCell_skips_cell_at_one :
    ∃ s', updateMineProbabilities 2 (board 1 2 [[1, -1]]) = some s' ∧
      (0, 1) ∈ cells s'.rows s'.columns ∧ s'.visible_map 0 1 = -1 ∧ s'.is_marked 0 1 = false ∧
      s'.mine_probability 0 1 = 1 ∧ findSafestCell s' = (-1, -1) :=
  ⟨_, eq_some_getD _ (board 1 2 [[1, -1]]) (by decide), by decide, by decide, by decide,
    by decide, by decide⟩

/-! ## The update depends on the grid only -/

theorem foldl_analysePair_congr_at (x : Numbered) (M : List Numbered) (n : Int × Int)
    (p1 p2 : Int → Int → ℚ) (h : p1 n.1 n.2 = p2 n.1 n.2) :
    (M.foldl (fun q y => analysePair x y q) p1) n.1 n.2 =
      (M.foldl (fun q y => analysePair x y q) p2) n.1 n.2 := by
  induction M generalizing p1 p2 with
  | nil => exact h
  | cons y M ih =>
    rw [List.foldl_cons, List.foldl_cons]
    apply ih
    rw [analysePair_apply, analysePair_apply, h]

theorem analysePairs_congr_at (L : List Numbered) (n : Int × Int) (p1 p2 : Int → Int → ℚ)
    (h : p1 n.1 n.2 = p2 n.1 n.2) :
    analysePairs L p1 n.1 n.2 = analysePairs L p2 n.1 n.2 := by
  induction L generalizing p1 p2 with
  | nil => exact h
  | cons x L ih =>
    rw [analysePairs, analysePairs]
    exact ih _ _ (foldl_analysePair_congr_at x L n p1 p2 h)

theorem analysePairs_frame (L : List Numbered) (n : Int × Int) (p : Int → Int → ℚ)
    (h : ∀ y ∈ L, n ∉ y.neighbors) : analysePairs L p n.1 n.2 = p n.1 n.2 := by
  apply analysePairs_invariant (fun q => q n.1 n.2 = p n.1 n.2) L _ p rfl
  intro x _ y hy q hq
  have hn : n ∉ getDifference y.neighbors x.neighbors :=
    fun k => h y hy (mem_getDifference.mp k).1
  have a : ¬ pairSafe x y (n.1, n.2) := fun k => hn k.2.2
  have b : ¬ pairMine x y (n.1, n.2) := fun k => hn k.2.2.2
  show analysePair x y q n.1 n.2 = p n.1 n.2
  rw [analysePair_apply, if_neg a, if_neg b]
  exact hq

theorem isHU_of_forcedSafeIn {s : Game} {L : List (Int × Int)} {n : Int × Int}
    (h : forcedSafeIn s L n) : isHU s n = true := by
  obtain ⟨c, _, _, hn⟩ := h
  exact (mem_scan_neighbors.mp hn).2

theorem isHU_of_forcedMineIn {s : Game} {L : List (Int × Int)} {n : Int × Int}
    (h : forcedMineIn s L n) : isHU s n = true := by
  obtain ⟨c, _, _, hn⟩ := h
  exact (mem_scan_neighbors.mp hn).2

theorem isHU_of_mem_numbered {s : Game} {y : Numbered} (hy : y ∈ numbered_cells s)
    {n : Int × Int} (hn : n ∈ y.neighbors) : isHU s n = true := by
  obtain ⟨c, _, _, _, _, rfl⟩ := mem_numbered_cells hy
  exact (mem_scan_neighbors.mp hn).2

/-- A run of the loop that returns does the same, with the same fuel, from any
probabilities that agree with the first ones on the hidden-unmarked cells. -/
theorem propagate_agree {s : Game} {fuel : Nat} {p r : Int → Int → ℚ}
    (h : propagate s fuel p = some r) (p' : Int → Int → ℚ)
    (hag : ∀ n, isHU s n = true → p n.1 n.2 = p' n.1 n.2) :
    propagate s fuel p' = some (pass s p').1 := by
  have hnc := noConflict_of_propagate_some h
  cases fuel with
  | zero => simp [propagate] at h
  | succ k =>
    cases k with
    | zero =>
      rw [propagate] at h
      have hch : (pass s p).2 = false := by
        by_contra hc
        have ht : (pass s p).2 = true := by simpa using hc
        rw [ht] at h
        simp [propagate] at h
      obtain ⟨_, f0, f1⟩ := foldl_scanCell_snd s _ _ hch
      have hid : pass s p' = (p', false) := by
        unfold pass
        apply foldl_scanCell_id
        · intro n hn
          show p' n.1 n.2 = 0
          rw [← hag n (isHU_of_forcedSafeIn hn)]
          exact f0 n hn
        · intro n hn
          show p' n.1 n.2 = 1
          rw [← hag n (isHU_of_forcedMineIn hn)]
          exact f1 n hn
      rw [propagate, hid]
      simp
    | succ k' => exact propagate_of_noConflict s hnc p' (k' + 2) (by omega)

theorem pass_value {s : Game}
    (hnc : ∀ n, forcedSafeIn s (cells s.rows s.columns) n →
      forcedMineIn s (cells s.rows s.columns) n → False) (p : Int → Int → ℚ) (n : Int × Int) :
    (pass s p).1 n.1 n.2 =
      if forcedSafeIn s (cells s.rows s.columns) n then 0
      else if forcedMineIn s (cells s.rows s.columns) n then 1 else p n.1 n.2 := by
  unfold pass
  rw [foldl_scanCell_fst s _ _ hnc]

theorem update_eq {fuel : Nat} {s s' : Game} (h : updateMineProbabilities fuel s = some s') :
    (∀ n, forcedSafeIn s (cells s.rows s.columns) n →
      forcedMineIn s (cells s.rows s.columns) n → False) ∧
    (∃ r, propagate s fuel (resetProbabilities s) = some r) ∧
    s' = { s with mine_probability :=
      analysePairs (numbered_cells s) (pass s (resetProbabilities s)).1 } := by
  unfold updateMineProbabilities at h
  cases hr : propagate s fuel (resetProbabilities s) with
  | none => rw [hr] at h; exact absurd h (by simp)
  | some r =>
    rw [hr] at h
    have hnc := noConflict_of_propagate_some hr
    refine ⟨hnc, ⟨r, rfl⟩, ?_⟩
    rw [← propagate_some s hnc hr]
    exact (Option.some.inj h).symm

theorem sameGrid_transfer (s t : Game) (hr : s.rows = t.rows) (hcol : s.columns = t.columns)
    (hv : s.visible_map = t.visible_map) (hm : s.is_marked = t.is_marked) :
    numbered_cells t = numbered_cells s ∧ (∀ p, pass t p = pass s p) ∧
      (∀ n, isHU t n = isHU s n) ∧ (∀ fuel p, propagate t fuel p = propagate s fuel p) := by
  obtain ⟨R, C, V, M, p1, a1, b1, c1⟩ := s
  obtain ⟨R2, C2, V2, M2, p2, a2, b2, c2⟩ := t
  simp only at hr hcol hv hm
  subst hr hcol hv hm
  refine ⟨rfl, fun _ => rfl, fun _ => rfl, fun fuel => ?_⟩
  induction fuel with
  | zero => intro p; rfl
  | succ k ih =>
    intro p
    rw [propagate, propagate, ih]
    rfl

theorem update_result {fuel : Nat} {s s' : Game} (h : updateMineProbabilities fuel s = some s') :
    s'.rows = s.rows ∧ s'.columns = s.columns ∧ s'.visible_map = s.visible_map ∧
      s'.is_marked = s.is_marked ∧
      s'.mine_probability = analysePairs (numbered_cells s) (pass s (resetProbabilities s)).1 := by
  obtain ⟨_, _, e⟩ := update_eq h
  rw [e]
  exact ⟨rfl, rfl, rfl, rfl, rfl⟩

theorem game_eq_of_prob (t : Game) (q : Int → Int → ℚ) (h : q = t.mine_probability) :
    ({ t with mine_probability := q } : Game) = t := by
  subst h
  rfl

/-- C14 (probabilities are recomputed from scratch): for two states with the
same grid (`rows`, `columns`, `visible_map`, `is_marked`) and any probabilities,
if `updateMineProbabilities` returns on both, the results agree on every
hidden-unmarked cell; and the update applied to its own result returns that
result unchanged. -/
theorem recomputed_from_scratch (s1 s2 : Game) (hr : s1.rows = s2.rows)
    (hcol : s1.columns = s2.columns) (hv : s1.visible_map = s2.visible_map)
    (hm : s1.is_marked = s2.is_marked) (fuel1 fuel2 : Nat) (r1 r2 : Game)
    (h1 : updateMineProbabilities fuel1 s1 = some r1)
    (h2 : updateMineProbabilities fuel2 s2 = some r2) :
    (∀ i j : Int, 0 ≤ i → i < s1.rows → 0 ≤ j → j < s1.columns →
      s1.visible_map i j = -1 → s1.is_marked i j = false →
      r1.mine_probability i j = r2.mine_probability i j) ∧
    updateMineProbabilities fuel1 r1 = some r1 := by
  obtain ⟨hnc, ⟨r, hprop⟩, _⟩ := update_eq h1
  obtain ⟨g1, g2, g3, g4, e1⟩ := update_result h1
  obtain ⟨_, _, _, _, e2⟩ := update_result h2
  obtain ⟨t1, t2, t3, _⟩ := sameGrid_transfer s1 s2 hr hcol hv hm
  obtain ⟨u1, u2, u3, u4⟩ := sameGrid_transfer s1 r1 g1.symm g2.symm g3.symm g4.symm
  constructor
  · intro i j hi1 hi2 hj1 hj2 hvis hmk
    have hu : isHU s1 (i, j) = true := isHU_iff.mpr ⟨⟨hi1, hi2, hj1, hj2⟩, hmk, hvis⟩
    have hu2 : isHU s2 (i, j) = true := by rw [t3]; exact hu
    rw [e1, e2, t1, t2]
    apply analysePairs_congr_at (numbered_cells s1) (i, j)
    rw [pass_value hnc, pass_value hnc, resetProbabilities_apply, resetProbabilities_apply,
      if_pos hu, if_pos hu2]
  · have hag : ∀ n, isHU s1 n = true →
        resetProbabilities s1 n.1 n.2 = resetProbabilities r1 n.1 n.2 := by
      intro n hn
      have hn2 : isHU r1 (n.1, n.2) = true := by rw [u3]; exact hn
      rw [resetProbabilities_apply, resetProbabilities_apply, if_pos hn, if_pos hn2]
    have hp2 := propagate_agree hprop _ hag
    unfold updateMineProbabilities
    rw [u4, hp2]
    show some (performAdvancedPatternAnalysis _) = some r1
    congr 1
    apply game_eq_of_prob r1
    show analysePairs (numbered_cells r1) (pass s1 (resetProbabilities r1)).1 = _
    rw [u1, e1]
    funext i j
    by_cases hu : isHU s1 (i, j) = true
    · apply analysePairs_congr_at (numbered_cells s1) (i, j)
      rw [pass_value hnc, pass_value hnc, ← hag (i, j) hu]
    · have hfr : ∀ y ∈ numbered_cells s1, (i, j) ∉ y.neighbors :=
        fun y hy hn => hu (isHU_of_mem_numbered hy hn)
      have hs0 : ¬ forcedSafeIn s1 (cells s1.rows s1.columns) (i, j) :=
        fun k => hu (isHU_of_forcedSafeIn k)
      have hs1 : ¬ forcedMineIn s1 (cells s1.rows s1.columns) (i, j) :=
        fun k => hu (isHU_of_forcedMineIn k)
      have hu' : ¬ isHU r1 (i, j) = true := by rw [u3]; exact hu
      have e3 := analysePairs_frame (numbered_cells s1) (i, j)
        (pass s1 (resetProbabilities r1)).1 hfr
      have e4 := pass_value hnc (resetProbabilities r1) (i, j)
      rw [if_neg hs0, if_neg hs1, resetProbabilities_apply, if_neg hu', e1] at e4
      exact e3.trans e4

/-- Witness for C14: the grid `???/111` once with all probabilities `0.5` and
once with all probabilities `0.0`: after the update both give `(0, 2)` the same
value, and a second update of the first result returns it unchanged. -/
theorem recomputed_from_scratch_witness :
    ((updateMineProbabilities 2 (board 2 3 [[-1, -1, -1], [1, 1, 1]])).getD
        (board 2 3 [[-1, -1, -1], [1, 1, 1]])).mine_probability 0 2 =
      ((updateMineProbabilities 2
          { board 2 3 [[-1, -1, -1], [1, 1, 1]] with mine_probability := fun _ _ => 0 }).getD
        (board 2 3 [[-1, -1, -1], [1, 1, 1]])).mine_probability 0 2 ∧
    updateMineProbabilities 2 ((updateMineProbabilities 2 (board 2 3 [[-1, -1, -1], [1, 1, 1]])).getD
        (board 2 3 [[-1, -1, -1], [1, 1, 1]])) =
      some ((updateMineProbabilities 2 (board 2 3 [[-1, -1, -1], [1, 1, 1]])).getD
        (board 2 3 [[-1, -1, -1], [1, 1, 1]])) :=
  ⟨(recomputed_from_scratch (board 2 3 [[-1, -1, -1], [1, 1, 1]])
      { board 2 3 [[-1, -1, -1], [1, 1, 1]] with mine_probability := fun _ _ => 0 }
      rfl rfl rfl rfl 2 2 _ _
      (eq_some_getD _ (board 2 3 [[-1, -1, -1], [1, 1, 1]]) (by decide))
      (eq_some_getD _ (board 2 3 [[-1, -1, -1], [1, 1, 1]]) (by decide))).1 0 2
      (by decide) (by decide) (by decide) (by decide) (by decide) (by decide),
    (recomputed_from_scratch (board 2 3 [[-1, -1, -1], [1, 1, 1]])
      { board 2 3 [[-1, -1, -1], [1, 1, 1]] with mine_probability := fun _ _ => 0 }
      rfl rfl rfl rfl 2 2 _ _
      (eq_some_getD _ (board 2 3 [[-1, -1, -1], [1, 1, 1]]) (by decide))
      (eq_some_getD _ (board 2 3 [[-1, -1, -1], [1, 1, 1]]) (by decide))).2⟩

end Minesweeper
